import Mathlib

/-!
# tagq: path queries over Go values

A shallow embedding of `tagq.go` (package `tagq`): the error values, the
`value` node, its coercion accessors and the recursive resolver `qnext`,
followed by theorems about them.

The Go code works through package `reflect`.  The embedding therefore has
three layers:

* `GoVal`, the universe of Go values the resolver can be handed;
* `reflect.Value` with the handful of `reflect` operations `tagq.go` calls
  (`Kind`, `Elem`, `Len`, `Index`, `MapIndex`, `FieldByName`, `Tag.Get`,
  `IsValid`, `CanInterface`, `Interface`), and `strconv.Atoi`;
* the functions of `tagq.go` themselves, under their Go names.

`int` is taken to be 64 bits wide.
-/

namespace tagq

/-! ## Errors (`tagq.go`, lines 13-32) -/

/-- The package-level error values of `tagq.go`. -/
inductive GoError where
  | ErrValueIsNil
  | ErrValueCannotBeCasted
  | ErrStrOfNil
  | ErrIntOfNil
  | ErrIntOfIncompatibleType
  | ErrFloat64OfNil
  | ErrFloat64OfIncompatibleType
  | ErrTimeOfNil
  | ErrTimeOfIncompatibleType
  | ErrQueryNilValue
  | ErrQueryEmptySlice
  | ErrQueryEmptyMap
  | ErrNonIntegerIndexForSlice
  | ErrIndexOutOfBoundsForSlice
  | ErrInvalidKeyTypeForMapQuery
  | ErrQueryEmptyStruct
  | ErrStructFieldNotFound
  | ErrUnsupportedTypeForQuery
  deriving DecidableEq, Repr

/-- The error an error value was built around with the `%w` verb of
`fmt.Errorf`, if any (what `errors.Unwrap` returns). -/
def GoError.Unwrap : GoError → Option GoError
  | .ErrStrOfNil => some .ErrValueIsNil
  | .ErrIntOfNil => some .ErrValueIsNil
  | .ErrIntOfIncompatibleType => some .ErrValueCannotBeCasted
  | .ErrFloat64OfNil => some .ErrValueIsNil
  | .ErrFloat64OfIncompatibleType => some .ErrValueCannotBeCasted
  | .ErrTimeOfNil => some .ErrValueIsNil
  | .ErrTimeOfIncompatibleType => some .ErrValueCannotBeCasted
  | .ErrQueryNilValue => some .ErrValueIsNil
  | .ErrQueryEmptySlice => some .ErrValueIsNil
  | .ErrQueryEmptyMap => some .ErrValueIsNil
  | .ErrQueryEmptyStruct => some .ErrValueIsNil
  | .ErrStructFieldNotFound => some .ErrValueIsNil
  | _ => none

/-- Whether `e` wraps `target` in the sense of `errors.Is`: `e` is `target`
or is built directly around it (no error of the package nests deeper). -/
def GoError.Is (e target : GoError) : Bool :=
  decide (e = target) || decide (e.Unwrap = some target)

/-! ## Go values -/

/-- The integer types of Go. -/
inductive IntKind where
  | int | int8 | int16 | int32 | int64
  | uint | uint8 | uint16 | uint32 | uint64
  deriving DecidableEq, Repr

/-- The kinds of `reflect.Kind`. -/
inductive Kind where
  | Invalid | Bool
  | Int | Int8 | Int16 | Int32 | Int64
  | Uint | Uint8 | Uint16 | Uint32 | Uint64 | Uintptr
  | Float32 | Float64 | Complex64 | Complex128
  | Array | Chan | Func | Interface | Map | Ptr | Slice | String | Struct
  | UnsafePointer
  deriving DecidableEq, Repr

/-- The `reflect.Kind` of an integer type. -/
def IntKind.toKind : IntKind → Kind
  | .int => .Int | .int8 => .Int8 | .int16 => .Int16 | .int32 => .Int32
  | .int64 => .Int64 | .uint => .Uint | .uint8 => .Uint8
  | .uint16 => .Uint16 | .uint32 => .Uint32 | .uint64 => .Uint64

/-- Kinds of values that carry nothing the resolver or the accessors read. -/
inductive MiscKind where
  | complex64 | complex128 | chan | func | unsafePointer
  deriving DecidableEq, Repr

/-- The `reflect.Kind` of a `MiscKind` value. -/
def MiscKind.toKind : MiscKind → Kind
  | .complex64 => .Complex64
  | .complex128 => .Complex128 | .chan => .Chan | .func => .Func
  | .unsafePointer => .UnsafePointer

/-- The key type of a map, as far as `qnext` and `reflect` distinguish it:
the type `string` itself, one of the ten predeclared integer types, a
defined type whose underlying type is `string` (`type KStr string`) or an
integer type (`type ID int8`), or any other type.  A defined key type has
the kind of its underlying type. -/
inductive KeyKind where
  | string
  | integral (k : IntKind)
  | definedString
  | definedIntegral (k : IntKind)
  | other
  deriving DecidableEq, Repr

/-- A map key: a `string`, an integer, or a key of some other type. -/
inductive GoKey where
  | s (x : String)
  | i (n : Int)
  | other (id : Nat)
  deriving DecidableEq, Repr

/-- One field of a struct: its name, its tag (the `key:"value"` pairs of the
tag string, in order) and the value stored in it. -/
structure StructField (α : Type) where
  Name : String
  Tag : List (String × String)
  val : α

/-- The Go values the resolver is handed.

Scalars are values of the predeclared types; `definedInt k n` is a value
of a defined type whose underlying type is the integer type `k` (such as
`time.Duration`, an `int64`).  `iface`/`ifaceNil` stand for a storage
location whose static type is an interface type (an element of a
`[]interface{}`, a value of a `map[string]interface{}`, a field of interface
type): `reflect` reports `Interface` as the kind of such a location,
whatever it holds.  `nilptr` records the kind of the type pointed to (for
the kind of a scalar, the predeclared type of that kind), and is a nil
pointer to a type other than `time.Time`; `nilTimePtr` is the nil
`*time.Time`.  A `time.Time` is the struct of its three unexported fields
(see `GoVal.asTime`).

Not in the universe: other defined (named) non-struct types, and embedded
struct fields. -/
inductive GoVal where
  | bool (b : Bool)
  | int (k : IntKind) (n : Int)
  | uintptr (n : Int)
  | definedInt (k : IntKind) (n : Int)
  | float32 (x : ℚ)
  | float64 (x : ℚ)
  | str (s : String)
  | misc (k : MiscKind)
  | array (xs : List GoVal)
  | nilptr (elem : Kind)
  | nilTimePtr
  | ptr (x : GoVal)
  | slice (xs : List GoVal)
  | map (key : KeyKind) (entries : List (GoKey × GoVal))
  | struct (fields : List (StructField GoVal))
  | ifaceNil
  | iface (x : GoVal)

/-- The `reflect.Kind` of a value. -/
def GoVal.kind : GoVal → Kind
  | .bool _ => .Bool
  | .int k _ => k.toKind
  | .uintptr _ => .Uintptr
  | .definedInt k _ => k.toKind
  | .float32 _ => .Float32
  | .float64 _ => .Float64
  | .str _ => .String
  | .misc k => k.toKind
  | .array _ => .Array
  | .nilptr _ => .Ptr
  | .nilTimePtr => .Ptr
  | .ptr _ => .Ptr
  | .slice _ => .Slice
  | .map _ _ => .Map
  | .struct _ => .Struct
  | .ifaceNil => .Interface
  | .iface _ => .Interface

/-- Number of pointer indirections at the head of a value. -/
def GoVal.ptrDepth : GoVal → Nat
  | .ptr x => x.ptrDepth + 1
  | .nilptr _ => 1
  | .nilTimePtr => 1
  | _ => 0

/-- The locations directly inside a value, behind any pointers at its
head: the elements of a slice, the values of a map, the fields of a
struct. -/
def GoVal.slots : GoVal → List GoVal
  | .ptr x => x.slots
  | .slice xs => xs
  | .map _ es => es.map (fun kv => kv.2)
  | .struct fs => fs.map (fun f => f.val)
  | _ => []

/-- A value as an `interface{}`: itself, except that a location of
interface type gives what it holds, `nil` (`none`) when it holds nothing. -/
def GoVal.asInterface : GoVal → Option GoVal
  | .ifaceNil => none
  | .iface x => some x
  | x => some x

/-! ## The part of `strings`, `strconv` and `reflect` that `tagq.go` uses -/

/-- The test `strings.ToUpper(q[:1]) == q[:1]` that `qnext` makes on a
non-empty token `q`: it looks at the first byte only.  `ToUpper` leaves a
one-byte string unchanged unless the byte is an ASCII lower-case letter or
is not ASCII at all (a lone byte of a multi-byte character is rewritten to
U+FFFD). -/
def firstByteIsUpper (q : String) : Bool :=
  match q.data with
  | [] => false
  | c :: _ => decide (c.toNat < 128) && !c.isLower

namespace strconv

/-- Value of a string of decimal digits, `none` if a character is not a
digit. -/
def digitsValue : List Char → Nat → Option Nat
  | [], acc => some acc
  | c :: cs, acc =>
    if c.isDigit then digitsValue cs (acc * 10 + (c.toNat - 48)) else none

/-- The number after the sign of a numeral: one or more decimal digits,
negated if `neg`, and within `-2^63 .. 2^63-1`. -/
def magnitude (neg : Bool) (ds : List Char) : Option Int :=
  if ds.isEmpty then none
  else
    match digitsValue ds 0 with
    | none => none
    | some n =>
      if neg then (if n ≤ 2 ^ 63 then some (-(n : Int)) else none)
      else (if n < 2 ^ 63 then some (n : Int) else none)

/-- The contract of `strconv.Atoi` for a 64-bit `int`: an optional sign `+`
or `-`, then one or more decimal digits, denoting a number of the range
`-2^63 .. 2^63-1`.  Anything else is an error (`none`): a syntax error, or a
range error for a numeral outside the range. -/
def Atoi (s : String) : Option Int :=
  match s.data with
  | '-' :: r => magnitude true r
  | '+' :: r => magnitude false r
  | r => magnitude false r

end strconv

/-- Conversion of an integer to the integer type `k` (`int8(x)`, `uint(x)`,
`int(x)`, ...): the value is reduced modulo the width of the type, into the
range of the type. -/
def IntKind.convert (k : IntKind) (x : Int) : Int :=
  match k with
  | .int => (x + 2 ^ 63) % 2 ^ 64 - 2 ^ 63
  | .int64 => (x + 2 ^ 63) % 2 ^ 64 - 2 ^ 63
  | .int8 => (x + 2 ^ 7) % 2 ^ 8 - 2 ^ 7
  | .int16 => (x + 2 ^ 15) % 2 ^ 16 - 2 ^ 15
  | .int32 => (x + 2 ^ 31) % 2 ^ 32 - 2 ^ 31
  | .uint => x % 2 ^ 64
  | .uint64 => x % 2 ^ 64
  | .uint8 => x % 2 ^ 8
  | .uint16 => x % 2 ^ 16
  | .uint32 => x % 2 ^ 32

/-- The method `StructTag.Get`: the value stored under `key`, and the empty
string when the tag has no such key. -/
def StructTag.Get (tag : List (String × String)) (key : String) : String :=
  match tag.find? (fun kv => kv.1 == key) with
  | some kv => kv.2
  | none => ""

/-- Whether a string starts with an upper-case letter `A`..`Z`. -/
def startsUpper (s : String) : Bool :=
  match s.data with
  | [] => false
  | c :: _ => c.isUpper

/-- The function `unicode.IsUpper` on the characters of Latin-1 (up to
U+00FF): the letters `A`..`Z`, `À`..`Ö` and `Ø`..`Þ`.  Characters beyond
Latin-1 are taken not to be upper-case. -/
def unicode.IsUpper (c : Char) : Bool :=
  c.isUpper || (decide (0xC0 ≤ c.toNat) && decide (c.toNat ≤ 0xDE) && !decide (c.toNat = 0xD7))

/-- Whether a field is exported (`Name.IsExported` in `reflect`): its name
starts with an upper-case letter. -/
def StructField.IsExported {α : Type} (f : StructField α) : Bool :=
  match f.Name.data with
  | [] => false
  | c :: _ => unicode.IsUpper c

namespace reflect

/-- A `reflect.Value`: the value it holds (`none` for the zero `Value`,
which is what `reflect.ValueOf(nil)`, a failed `MapIndex` or `FieldByName`
and `Elem` of a nil pointer give) and the read-only flag `flagRO`, set on
everything reached through an unexported struct field. -/
structure Value where
  val : Option GoVal
  ro : Bool

/-- The zero `reflect.Value`. -/
def Value.zero : Value := ⟨none, false⟩

/-- The function `reflect.ValueOf` on the content of an `interface{}`. -/
def ValueOf (x : Option GoVal) : Value := ⟨x, false⟩

/-- The method `Value.IsValid`. -/
def Value.IsValid (rv : Value) : Bool := rv.val.isSome

/-- The method `Value.CanInterface`. -/
def Value.CanInterface (rv : Value) : Bool := !rv.ro

/-- The method `Value.Kind` (`rv.Type().Kind()` on a valid `Value`). -/
def Value.Kind (rv : Value) : Kind :=
  match rv.val with
  | none => .Invalid
  | some x => x.kind

/-- The method `Value.Interface`: the value as an `interface{}`. -/
def Value.Interface (rv : Value) : Option GoVal :=
  rv.val.bind GoVal.asInterface

/-- The method `Value.Elem` on a pointer: the value pointed to, the zero
`Value` for a nil pointer. -/
def Value.Elem (rv : Value) : Value :=
  match rv.val with
  | some (.ptr x) => ⟨some x, rv.ro⟩
  | _ => Value.zero

/-- The method `Value.Len` on a slice or a map. -/
def Value.Len (rv : Value) : Nat :=
  match rv.val with
  | some (.slice xs) => xs.length
  | some (.array xs) => xs.length
  | some (.map _ es) => es.length
  | some (.str s) => s.utf8ByteSize
  | _ => 0

/-- The method `Value.Index` on a slice, for an index below `Len`. -/
def Value.Index (rv : Value) (i : Nat) : Value :=
  match rv.val with
  | some (.slice xs) => ⟨xs.get? i, rv.ro⟩
  | some (.array xs) => ⟨xs.get? i, rv.ro⟩
  | _ => Value.zero

/-- The kind of the key type of a map: `rv.Type().Key().Kind()`. -/
def Value.KeyKind (rv : Value) : KeyKind :=
  match rv.val with
  | some (.map k _) => k
  | _ => .other

/-- The method `Value.MapIndex` on a key assignable to the key type: the
value stored under `key`, the zero `Value` when the map has no such key.
On a key that is not assignable to the key type `MapIndex` panics; that is
the case of the keys `qnext` builds (a `string`, a predeclared integer) on
a map with a defined key type, and `qnext` has it as `.panics`. -/
def Value.MapIndex (rv : Value) (key : GoKey) : Value :=
  match rv.val with
  | some (.map _ es) =>
    match es.find? (fun kv => decide (kv.1 = key)) with
    | some kv => ⟨some kv.2, rv.ro⟩
    | none => Value.zero
  | _ => Value.zero

/-- The fields of a struct, in declaration order. -/
def Value.Fields (rv : Value) : List (StructField GoVal) :=
  match rv.val with
  | some (.struct fs) => fs
  | _ => []

/-- The method `Value.NumField`. -/
def Value.NumField (rv : Value) : Nat := rv.Fields.length

/-- The `Value` of a field of the struct `rv` (what `Value.Field` returns):
read-only if the struct is, or if the field is unexported. -/
def Value.ofField (rv : Value) (f : StructField GoVal) : Value :=
  ⟨some f.val, rv.ro || !f.IsExported⟩

/-- The method `Value.FieldByName`: the field with the given name, the zero
`Value` when there is none. -/
def Value.FieldByName (rv : Value) (name : String) : Value :=
  match rv.Fields.find? (fun f => f.Name == name) with
  | some f => rv.ofField f
  | none => Value.zero

end reflect

/-! ## `tagq.go` -/

/-- The struct `value` of `tagq.go`: the raw value `v` (an `interface{}`,
`none` for `nil`), the last error and the tags searched in structs. -/
structure value where
  v : Option GoVal
  lastErr : Option GoError
  tags : List String

/-- What a call that returns a `*value` does: return a node, return the nil
pointer, or panic. -/
inductive Outcome where
  | node (n : value)
  | nilPtr
  | panics

/-- The method `value.new` (lines 268-280). -/
def value.new (v : value) (rv : reflect.Value) : value :=
  { lastErr := none
    v := if rv.IsValid then (if rv.CanInterface then rv.Interface else none) else none
    tags := v.tags }

/-- A fresh node carrying the error `e`: `vn := v.new(reflect.ValueOf(nil))`
followed by `vn.lastErr = e`. -/
def value.fail (v : value) (e : GoError) : value :=
  { v.new (reflect.ValueOf none) with lastErr := some e }

/-- Measure for the recursion of `qnext`. -/
def reflect.Value.ptrDepth (rv : reflect.Value) : Nat :=
  match rv.val with
  | some x => x.ptrDepth
  | none => 0

/-- The method `value.qnext` (lines 282-420).  `rnd d` is the number the
random source yields at the step that has `d` tokens still to come after
the current one. -/
def value.qnext (rnd : Nat → Nat) (v : value) (rv : reflect.Value) (query : List String) :
    Outcome :=
  match query with
  | [] => .node v
  | q0 :: rest =>
    -- `rv.Type()` panics on the zero Value
    if rv.IsValid = false then .panics
    else if hp : rv.Kind = .Ptr then value.qnext rnd v rv.Elem (q0 :: rest)
    else
      match rv.Kind with
      | .Slice =>
        if rv.Len = 0 then .node (v.fail .ErrQueryNilValue)
        else if q0 = "last" then
          let vn := v.new (rv.Index (rv.Len - 1))
          if rest.length = 0 then .node vn
          else value.qnext rnd vn (rv.Index (rv.Len - 1)) rest
        else if q0 = "random" ∨ q0 = "rand" then
          let n := rnd rest.length % rv.Len
          let vn := v.new (rv.Index n)
          if rest.length = 0 then .node vn
          else value.qnext rnd vn (rv.Index n) rest
        else
          match strconv.Atoi q0 with
          | none => .node (v.fail .ErrNonIntegerIndexForSlice)
          | some vi =>
            if vi < 0 ∨ vi ≥ rv.Len then .node (v.fail .ErrIndexOutOfBoundsForSlice)
            else
              let vn := v.new (rv.Index vi.toNat)
              if rest.length = 0 then .node vn
              else value.qnext rnd vn (rv.Index vi.toNat) rest
      | .Map =>
        if rv.Len = 0 then .node (v.fail .ErrQueryEmptyMap)
        else
          match rv.KeyKind with
          | .string =>
            let item := rv.MapIndex (.s q0)
            let vn := v.new item
            if rest.length = 0 then .node vn
            else value.qnext rnd vn item rest
          | .integral k =>
            match strconv.Atoi q0 with
            | none => .node (v.fail .ErrInvalidKeyTypeForMapQuery)
            | some sconv =>
              let item := rv.MapIndex (.i (k.convert sconv))
              let vn := v.new item
              if rest.length = 0 then .node vn
              else value.qnext rnd vn item rest
          | .definedString =>
            -- kind `String`: `rv.MapIndex(reflect.ValueOf(query[0]))` panics, a
            -- `string` not being assignable to the defined key type
            .panics
          | .definedIntegral _ =>
            -- an integer kind: `Atoi`, then `rv.MapIndex(vx)` panics, `vx` being
            -- of a predeclared type
            match strconv.Atoi q0 with
            | none => .node (v.fail .ErrInvalidKeyTypeForMapQuery)
            | some _ => .panics
          | .other => .nilPtr
      | .Struct =>
        if rv.NumField = 0 then .node (v.fail .ErrQueryEmptyStruct)
        else
          let byName :=
            if q0.length > 0 ∧ firstByteIsUpper q0 = true then rv.FieldByName q0
            else reflect.Value.zero
          if byName.IsValid then
            let vn := v.new byName
            if rest.length = 0 then .node vn
            else value.qnext rnd vn byName rest
          else
            match rv.Fields.find? (fun sfield =>
                v.tags.any (fun tlookup => StructTag.Get sfield.Tag tlookup == q0)) with
            | some sfield =>
              let vn := v.new (rv.ofField sfield)
              if rest.length = 0 then .node vn
              else value.qnext rnd vn (rv.ofField sfield) rest
            | none => .node (v.fail .ErrStructFieldNotFound)
      | _ => .nilPtr
termination_by (query.length, rv.ptrDepth)
decreasing_by
  · simp_wf
    apply Prod.Lex.right
    obtain ⟨val, ro⟩ := rv
    cases val with
    | none => simp [reflect.Value.Kind] at hp
    | some x =>
      cases x with
      | ptr y => simp [reflect.Value.Elem, reflect.Value.ptrDepth, GoVal.ptrDepth]
      | nilptr e =>
        simp [reflect.Value.Elem, reflect.Value.ptrDepth, GoVal.ptrDepth, reflect.Value.zero]
      | nilTimePtr =>
        simp [reflect.Value.Elem, reflect.Value.ptrDepth, GoVal.ptrDepth, reflect.Value.zero]
      | int k n => cases k <;> simp [reflect.Value.Kind, GoVal.kind, IntKind.toKind] at hp
      | definedInt k n =>
        cases k <;> simp [reflect.Value.Kind, GoVal.kind, IntKind.toKind] at hp
      | misc k => cases k <;> simp [reflect.Value.Kind, GoVal.kind, MiscKind.toKind] at hp
      | _ => simp [reflect.Value.Kind, GoVal.kind] at hp
  all_goals simp_wf
  all_goals exact Prod.Lex.left _ _ (Nat.lt_succ_self _)

/-! ### Coercion accessors (lines 71-255) -/

/-- An instant, as `time.Time` holds it: seconds since the Unix epoch and
nanoseconds within the second. -/
structure GoTime where
  sec : Int
  nsec : Int
  deriving DecidableEq, Repr

/-- The zero `time.Time{}`: January 1 of year 1, 00:00:00 UTC. -/
def GoTime.zero : GoTime := ⟨-62135596800, 0⟩

/-- The function `time.Unix`: `nsec` outside `[0, 999999999]` is carried
into the seconds. -/
def GoTime.Unix (sec nsec : Int) : GoTime :=
  if nsec < 0 ∨ nsec ≥ 1000000000 then
    let n := Int.tdiv nsec 1000000000
    let sec1 := sec + n
    let nsec1 := nsec - n * 1000000000
    if nsec1 < 0 then ⟨sec1 - 1, nsec1 + 1000000000⟩ else ⟨sec1, nsec1⟩
  else ⟨sec, nsec⟩

/-- The instant a `time.Time` holds in its fields `wall` and `ext` (the
methods `nsec`, `sec` and `unixSec` of package `time`): the nanoseconds are
the low 30 bits of `wall`; the seconds since year 1 are `ext`, or, when bit
63 of `wall` is set, the 33 bits of `wall` above the nanoseconds counted
from 1885. -/
def GoTime.ofWallExt (wall ext : Int) : GoTime :=
  let nsec := wall % 2 ^ 30
  let sec := if wall / 2 ^ 63 % 2 = 1 then 59453308800 + wall / 2 ^ 30 % 2 ^ 33 else ext
  ⟨sec - 62135596800, nsec⟩

/-- The instant of a value of type `time.Time`, `none` for a value of
another type.  A `time.Time` is the struct of the unexported fields
`wall uint64`, `ext int64` and `loc *Location`. -/
def GoVal.asTime : GoVal → Option GoTime
  | .struct [f1, f2, f3] =>
    match f1.val, f2.val with
    | .int .uint64 wall, .int .int64 ext =>
      if f1.Name = "wall" ∧ f2.Name = "ext" ∧ f3.Name = "loc" then
        some (GoTime.ofWallExt wall ext)
      else none
    | _, _ => none
  | _ => none

/-- What the accessors take from outside the package: the rendering
`fmt.Sprintf("%v", x)`, the parser `time.Parse(layout, s)` and the rounding
of a number to the nearest `float64`. -/
structure Host where
  Sprintf : GoVal → String
  Parse : String → String → Option GoTime
  roundFloat64 : ℚ → ℚ

/-- Conversion `int(f)` / `int64(f)` of a floating-point number: the
fraction is dropped (truncation toward zero); a result outside the range of
`int64` is not specified by Go and is `-2^63` here, as on amd64. -/
def floatToInt (x : ℚ) : Int :=
  let t := Int.tdiv x.num (x.den : Int)
  if -(2 : Int) ^ 63 ≤ t ∧ t < 2 ^ 63 then t else -(2 : Int) ^ 63

/-- The method `value.Str` (lines 71-86): the result and the receiver
after the call.  The case of a `fmt.Stringer` (lines 80-83) and the
fallback (lines 84-85) are one case here: for a value with a `String`
method, `fmt.Sprintf("%v", x)` is `x.String()`, and `Host.Sprintf` stands
for both. -/
def value.Str (h : Host) (v : value) : String × value :=
  match v.v with
  | none => ("", { v with lastErr := some .ErrStrOfNil })
  | some (.str s) => (s, { v with lastErr := none })
  | some x => (h.Sprintf x, { v with lastErr := none })

/-- The method `value.Int` (lines 88-133): the result and the receiver
after the call. -/
def value.Int (v : value) : ℤ × value :=
  match v.v with
  | none => (0, { v with lastErr := some .ErrIntOfNil })
  | some (.int _ n) => (IntKind.convert .int n, { v with lastErr := none })
  | some (.float32 x) => (floatToInt x, { v with lastErr := none })
  | some (.float64 x) => (floatToInt x, { v with lastErr := none })
  | some _ => (0, { v with lastErr := none })

/-- The method `value.Float64` (lines 135-180): the result and the
receiver after the call. -/
def value.Float64 (h : Host) (v : value) : ℚ × value :=
  match v.v with
  | none => (0, { v with lastErr := some .ErrIntOfNil })
  | some (.int _ n) => (h.roundFloat64 n, { v with lastErr := none })
  | some (.float32 x) => (x, { v with lastErr := none })
  | some (.float64 x) => (x, { v with lastErr := none })
  | some _ => (0, { v with lastErr := none })

/-- The method `value.F64` (lines 182-184). -/
def value.F64 (h : Host) (v : value) : ℚ × value := v.Float64 h

/-- The method `value.timeFromStr` (lines 231-247). -/
def value.timeFromStr (h : Host) (v : value) (vs : String) : GoTime × value :=
  match h.Parse "2006-01-02T15:04:05.999999999Z07:00" vs with
  | some tx => (tx, { v with lastErr := none })
  | none =>
    match h.Parse "2006-01-02T15:04:05Z07:00" vs with
    | some tx => (tx, { v with lastErr := none })
    | none =>
      match h.Parse "2006-01-02 15:04:05" vs with
      | some tx => (tx, { v with lastErr := none })
      | none => (GoTime.zero, { v with lastErr := some .ErrTimeOfIncompatibleType })

/-- The method `value.timeFromInt64` (lines 249-255). -/
def value.timeFromInt64 (v : value) (i : ℤ) : GoTime × value :=
  if i > 9999999999 then
    (GoTime.Unix (Int.tdiv i 1000) (Int.tmod i 1000 * 1000000), v)
  else (GoTime.Unix i 0, v)

/-- The method `value.Time` (lines 186-225): the result and the receiver
after the call, or `none` when the call panics (a nil pointer of one of the
pointer types of the switch is dereferenced).  The cases `time.Time` and
`*time.Time` are the structs `asTime` recognises; every other struct falls
to the end of the switch. -/
def value.Time (h : Host) (v : value) : Option (GoTime × value) :=
  match v.v with
  | none => some (GoTime.zero, { v with lastErr := some .ErrTimeOfNil })
  | some .nilTimePtr => none
  | some (.ptr (.struct fs)) =>
    match (GoVal.struct fs).asTime with
    | some t => some (t, { v with lastErr := none })
    | none => some (GoTime.zero, { v with lastErr := some .ErrTimeOfIncompatibleType })
  | some (.struct fs) =>
    match (GoVal.struct fs).asTime with
    | some t => some (t, { v with lastErr := none })
    | none => some (GoTime.zero, { v with lastErr := some .ErrTimeOfIncompatibleType })
  | some (.str s) => some (v.timeFromStr h s)
  | some (.ptr (.str s)) => some (v.timeFromStr h s)
  | some (.nilptr .String) => none
  | some (.int .int64 n) => some (v.timeFromInt64 n)
  | some (.ptr (.int .int64 n)) => some (v.timeFromInt64 n)
  | some (.nilptr .Int64) => none
  | some (.int .int32 n) => some (v.timeFromInt64 (IntKind.convert .int64 n))
  | some (.ptr (.int .int32 n)) => some (v.timeFromInt64 (IntKind.convert .int64 n))
  | some (.nilptr .Int32) => none
  | some (.int .int n) => some (v.timeFromInt64 (IntKind.convert .int64 n))
  | some (.ptr (.int .int n)) => some (v.timeFromInt64 (IntKind.convert .int64 n))
  | some (.nilptr .Int) => none
  | some (.float64 x) => some (v.timeFromInt64 (floatToInt x))
  | some (.ptr (.float64 x)) => some (v.timeFromInt64 (floatToInt x))
  | some (.nilptr .Float64) => none
  | some (.float32 x) => some (v.timeFromInt64 (floatToInt x))
  | some (.ptr (.float32 x)) => some (v.timeFromInt64 (floatToInt x))
  | some (.nilptr .Float32) => none
  | some _ => some (GoTime.zero, { v with lastErr := some .ErrTimeOfIncompatibleType })

/-- The method `value.Interface` (lines 227-229). -/
def value.Interface (v : value) : Option GoVal := v.v

/-- The method `value.Err` (lines 422-424). -/
def value.Err (v : value) : Option GoError := v.lastErr

/-- The method `value.Tags` (lines 426-428). -/
def value.Tags (v : value) : List String := v.tags

/-- The method `value.SetTags` (lines 430-434). -/
def value.SetTags (v : value) (tags : List String) : value := { v with tags := tags }

/-- The call `x.Err()` on what a query returned: `none` when it panics,
which it does on the nil pointer (`v.lastErr` of a nil `*value`). -/
def Outcome.Err : Outcome → Option (Option GoError)
  | .node n => some n.Err
  | .nilPtr => none
  | .panics => none

/-- The call `x.Interface()` on what a query returned: `none` when it
panics. -/
def Outcome.Interface : Outcome → Option (Option GoVal)
  | .node n => some n.Interface
  | .nilPtr => none
  | .panics => none


/-- The method `value.Q` (lines 257-266). -/
def value.Q (rnd : Nat → Nat) (v : value) (query : List String) : Outcome :=
  if query.length = 0 then .node v
  else if v.v.isNone then .node { v with lastErr := some .ErrQueryNilValue }
  else v.qnext rnd (reflect.ValueOf v.v) query

/-- The variable `DefaultTags`, with its initial value. -/
def DefaultTags : List String := ["json", "xml", "param", "query", "header"]

/-- The function `Q` (lines 439-446), run with `tags` as the current value
of the variable `DefaultTags`. -/
def Q (rnd : Nat → Nat) (tags : List String) (v : Option GoVal) (query : List String) :
    Outcome :=
  value.Q rnd { v := v, lastErr := none, tags := tags } query

/-! ## Vocabulary of the statements -/

/-- The sign written in front of a numeral. -/
inductive Sign where
  | none | plus | minus
  deriving DecidableEq, Repr

/-- The characters of a sign. -/
def Sign.chars : Sign → List Char
  | .none => []
  | .plus => ['+']
  | .minus => ['-']

/-- The number a list of decimal digits denotes, most significant first. -/
def digitsNat (ds : List (Fin 10)) : Nat :=
  ds.foldl (fun a d => a * 10 + d.val) 0

/-- The base-10 numeral with the given sign and digits. -/
def numeral (sg : Sign) (ds : List (Fin 10)) : String :=
  ⟨sg.chars ++ ds.map (fun d => Nat.digitChar d.val)⟩

/-- The integer a numeral denotes. -/
def numeralValue (sg : Sign) (ds : List (Fin 10)) : Int :=
  match sg with
  | .minus => -(digitsNat ds : Int)
  | _ => (digitsNat ds : Int)


/-- Nanoseconds from the Unix epoch to an instant (the method
`Time.UnixNano`, without its overflow). -/
def GoTime.UnixNano (t : GoTime) : Int :=
  t.sec * 1000000000 + t.nsec

/-- The range of the integer type `k`. -/
def IntKind.inRange (k : IntKind) (n : Int) : Prop :=
  match k with
  | .int => -(2 : Int) ^ 63 ≤ n ∧ n < 2 ^ 63
  | .int64 => -(2 : Int) ^ 63 ≤ n ∧ n < 2 ^ 63
  | .int8 => -(2 : Int) ^ 7 ≤ n ∧ n < 2 ^ 7
  | .int16 => -(2 : Int) ^ 15 ≤ n ∧ n < 2 ^ 15
  | .int32 => -(2 : Int) ^ 31 ≤ n ∧ n < 2 ^ 31
  | .uint => 0 ≤ n ∧ n < 2 ^ 64
  | .uint64 => 0 ≤ n ∧ n < 2 ^ 64
  | .uint8 => 0 ≤ n ∧ n < 2 ^ 8
  | .uint16 => 0 ≤ n ∧ n < 2 ^ 16
  | .uint32 => 0 ≤ n ∧ n < 2 ^ 32

/-- The pointer to `x` through `k` indirections: `x` itself for `k = 0`,
`&x` for `k = 1`, a pointer to `&x` for `k = 2`, and so on. -/
def GoVal.pointerTo : Nat → GoVal → GoVal
  | 0, x => x
  | k + 1, x => .ptr (GoVal.pointerTo k x)

/-- The raw values `Time()` hands to `timeFromInt64`: an `int64`, `int32`,
`int`, `float64` or `float32`, or a non-nil pointer to one. -/
def GoVal.isEpochNumber : GoVal → Bool
  | .int .int64 _ => true
  | .int .int32 _ => true
  | .int .int _ => true
  | .float64 _ => true
  | .float32 _ => true
  | .ptr (.int .int64 _) => true
  | .ptr (.int .int32 _) => true
  | .ptr (.int .int _) => true
  | .ptr (.float64 _) => true
  | .ptr (.float32 _) => true
  | _ => false

/-- The nodes a caller of the package can hold: the node the function `Q`
builds around its argument, with an empty error slot, and every node got
from such a node by the methods of `Value`: `Q` (the node it returns),
`SetTags`, and the accessors `Str`, `Int`, `Float64`, `Time` (the receiver
after the call). -/
inductive value.Reachable (h : Host) : value → Prop
  | root (v : Option GoVal) (tags : List String) : value.Reachable h ⟨v, none, tags⟩
  | query (rnd : Nat → Nat) (n n' : value) (query : List String) :
      value.Reachable h n → n.Q rnd query = .node n' → value.Reachable h n'
  | setTags (n : value) (tags : List String) :
      value.Reachable h n → value.Reachable h (n.SetTags tags)
  | str (n : value) : value.Reachable h n → value.Reachable h (n.Str h).2
  | int (n : value) : value.Reachable h n → value.Reachable h (n.Int).2
  | float64 (n : value) : value.Reachable h n → value.Reachable h (n.Float64 h).2
  | time (n : value) (r : GoTime × value) :
      value.Reachable h n → n.Time h = some r → value.Reachable h r.2

/-! ## The values of `tagq_test.go` -/

/-- A `time.Time` as `reflect` sees it: a struct of three unexported
fields.  The instant itself plays no part in the queries. -/
def timeValue : GoVal :=
  .struct [⟨"wall", [], .int .uint64 0⟩, ⟨"ext", [], .int .int64 0⟩, ⟨"loc", [], .nilptr .Struct⟩]

/-- A `*TestQuerierChild` with the given `Scoreboard`. -/
def TestQuerierChild (scoreboard : List Int) : GoVal :=
  .ptr (.struct [
    ⟨"Marco", [("param", "marco")], timeValue⟩,
    ⟨"Polo", [("param", "polo")], .ptr timeValue⟩,
    ⟨"Scoreboard", [("json", "scoreboard")], .slice (scoreboard.map (GoVal.int .int))⟩])

/-- The slice `qx.Children` of `TestQ`. -/
def qxChildren : GoVal :=
  .slice [TestQuerierChild [1, 2, 3, 4, 5], TestQuerierChild [6, 7, 8, 9, 10, 11]]

/-- The `*TestQuerier` `qx` of `TestQ`. -/
def qx : GoVal :=
  .ptr (.struct [
    ⟨"A", [("json", "a")], .str "real nice"⟩,
    ⟨"Age", [("json", "age")], .int .int 42⟩,
    ⟨"MapItems", [("header", "map_items"), ("xml", "xmap-items")],
      .map .string [(.s "waldo", .str "weldo"), (.s "fred", .str "flintspears")]⟩,
    ⟨"Children", [("header", "hchildren"), ("xml", "children")], qxChildren⟩])

/-! ## Theorems -/

/-! ### Numerals and `strconv.Atoi` -/

theorem digitChar_facts : ∀ d : Fin 10,
    (Nat.digitChar d.val).isDigit = true ∧ (Nat.digitChar d.val).toNat - 48 = d.val ∧
    Nat.digitChar d.val ≠ '-' ∧ Nat.digitChar d.val ≠ '+' ∧
    Nat.digitChar d.val ≠ 'l' ∧ Nat.digitChar d.val ≠ 'r' := by
  decide

theorem digitsValue_digits (ds : List (Fin 10)) (acc : Nat) :
    strconv.digitsValue (ds.map (fun d => Nat.digitChar d.val)) acc =
      some (ds.foldl (fun a d => a * 10 + d.val) acc) := by
  induction ds generalizing acc with
  | nil => simp [strconv.digitsValue]
  | cons d ds ih =>
    obtain ⟨h1, h2, -⟩ := digitChar_facts d
    simp [strconv.digitsValue, h1, h2, ih]

theorem magnitude_digits (neg : Bool) (ds : List (Fin 10)) (hds : ds ≠ []) :
    strconv.magnitude neg (ds.map (fun d => Nat.digitChar d.val)) =
      if neg then (if digitsNat ds ≤ 2 ^ 63 then some (-(digitsNat ds : Int)) else none)
      else (if digitsNat ds < 2 ^ 63 then some (digitsNat ds : Int) else none) := by
  simp [strconv.magnitude, digitsValue_digits, hds, digitsNat]

/-- What `Atoi` makes of a numeral: the integer it denotes when that lies
in `-2^63 .. 2^63-1`, an error otherwise. -/
theorem Atoi_numeral (sg : Sign) (ds : List (Fin 10)) (hds : ds ≠ []) :
    strconv.Atoi (numeral sg ds) =
      if -(2 : Int) ^ 63 ≤ numeralValue sg ds ∧ numeralValue sg ds < 2 ^ 63
      then some (numeralValue sg ds) else none := by
  cases sg with
  | minus =>
    simp only [strconv.Atoi, numeral, Sign.chars, List.singleton_append, magnitude_digits _ _ hds,
      numeralValue]
    simp only [if_true]
    split_ifs <;> first | rfl | omega
  | plus =>
    simp only [strconv.Atoi, numeral, Sign.chars, List.singleton_append, magnitude_digits _ _ hds,
      numeralValue]
    split_ifs <;> first | rfl | omega | simp_all
  | none =>
    obtain ⟨d, ds', rfl⟩ := List.exists_cons_of_ne_nil hds
    obtain ⟨-, -, hm, hp, -⟩ := digitChar_facts d
    have hA : strconv.Atoi (numeral .none (d :: ds')) =
        strconv.magnitude false ((d :: ds').map (fun d => Nat.digitChar d.val)) := by
      simp only [strconv.Atoi, numeral, Sign.chars, List.nil_append, List.map_cons]
      split
      · rename_i heq; simp at heq; exact absurd heq.1 hm
      · rename_i heq; simp at heq; exact absurd heq.1 hp
      · rfl
    rw [hA, magnitude_digits _ _ hds]
    simp only [numeralValue]
    split_ifs <;> first | rfl | omega | simp_all

theorem numeral_ne_keyword (sg : Sign) (ds : List (Fin 10)) (hds : ds ≠ []) :
    numeral sg ds ≠ "last" ∧ numeral sg ds ≠ "random" ∧ numeral sg ds ≠ "rand" := by
  obtain ⟨d, ds', rfl⟩ := List.exists_cons_of_ne_nil hds
  obtain ⟨-, -, -, -, hl, hr⟩ := digitChar_facts d
  refine ⟨?_, ?_, ?_⟩ <;> intro h <;> have h2 := congrArg String.data h <;>
    cases sg <;> simp [numeral, Sign.chars] at h2
  · exact hl h2.1
  · exact hr h2.1
  · exact hr h2.1

theorem digitsNat_append_single (ds : List (Fin 10)) (d : Fin 10) :
    digitsNat (ds ++ [d]) = digitsNat ds * 10 + d.val := by
  simp [digitsNat, List.foldl_append]

theorem toDigitsCore_digits (fuel : Nat) : ∀ (n : Nat) (acc : List (Fin 10)), n < fuel →
    ∃ ds : List (Fin 10), ds ≠ [] ∧ digitsNat ds = n ∧
      Nat.toDigitsCore 10 fuel n (acc.map (fun d => Nat.digitChar d.val)) =
        (ds ++ acc).map (fun d => Nat.digitChar d.val) := by
  induction fuel with
  | zero => intro n acc h; omega
  | succ fuel ih =>
    intro n acc h
    have hlt : n % 10 < 10 := Nat.mod_lt _ (by decide)
    by_cases h0 : n / 10 = 0
    · refine ⟨[⟨n % 10, hlt⟩], by simp, ?_, ?_⟩
      · simp [digitsNat]; omega
      · simp [Nat.toDigitsCore, h0]
    · obtain ⟨ds, -, hv, hd⟩ := ih (n / 10) (⟨n % 10, hlt⟩ :: acc) (by omega)
      refine ⟨ds ++ [⟨n % 10, hlt⟩], by simp, ?_, ?_⟩
      · rw [digitsNat_append_single, hv]; simp; omega
      · simp only [Nat.toDigitsCore, h0, if_false]
        simpa using hd

/-- The decimal representation of a natural number is the unsigned numeral
of digits that denote it. -/
theorem toString_eq_numeral (n : Nat) :
    ∃ ds : List (Fin 10), ds ≠ [] ∧ digitsNat ds = n ∧ toString n = numeral .none ds := by
  obtain ⟨ds, hne, hv, hd⟩ := toDigitsCore_digits (n + 1) n [] (Nat.lt_succ_self n)
  refine ⟨ds, hne, hv, ?_⟩
  show Nat.repr n = _
  simp only [Nat.repr, Nat.toDigits, List.asString, numeral, Sign.chars, List.nil_append]
  exact congrArg String.mk (by simpa using hd)

theorem Atoi_toString (n : Nat) (h : n < 2 ^ 63) :
    strconv.Atoi (toString n) = some (n : Int) ∧
      toString n ≠ "last" ∧ toString n ≠ "random" ∧ toString n ≠ "rand" := by
  obtain ⟨ds, hne, hv, hs⟩ := toString_eq_numeral n
  rw [hs]
  refine ⟨?_, numeral_ne_keyword _ _ hne⟩
  rw [Atoi_numeral _ _ hne]
  simp only [numeralValue, hv]
  rw [if_pos]
  constructor <;> omega

/-! ### Unfolding `Q` and `qnext` -/

theorem Q_cons (rnd : Nat → Nat) (tags : List String) (x : GoVal) (q0 : String)
    (rest : List String) :
    Q rnd tags (some x) (q0 :: rest) =
      value.qnext rnd ⟨some x, none, tags⟩ ⟨some x, false⟩ (q0 :: rest) := by
  simp [Q, value.Q, reflect.ValueOf]

/-- One step of `qnext` into a non-empty slice with a token that `Atoi`
reads as an index of the slice. -/
theorem qnext_slice_index (rnd : Nat → Nat) (v : value) (xs : List GoVal) (ro : Bool)
    (q0 : String) (rest : List String) (i : Nat) (hi : i < xs.length)
    (h1 : q0 ≠ "last") (h2 : q0 ≠ "random") (h3 : q0 ≠ "rand")
    (hA : strconv.Atoi q0 = some (i : Int)) :
    value.qnext rnd v ⟨some (.slice xs), ro⟩ (q0 :: rest) =
      if rest = [] then .node (v.new ⟨some (xs.get ⟨i, hi⟩), ro⟩)
      else value.qnext rnd (v.new ⟨some (xs.get ⟨i, hi⟩), ro⟩) ⟨some (xs.get ⟨i, hi⟩), ro⟩ rest := by
  have hne : xs ≠ [] := by intro h; simp [h] at hi
  have hneg : ¬ ((i : Int) < 0) := by omega
  have hg : xs[i]? = some (xs.get ⟨i, hi⟩) := List.getElem?_eq_getElem hi
  rw [value.qnext]
  simp [reflect.Value.IsValid, reflect.Value.Kind, GoVal.kind, reflect.Value.Len, hne, h1, h2, h3,
    hA, hneg, Nat.not_le.mpr hi, reflect.Value.Index, hg]

/-- One step of `qnext` into a non-empty slice with the token `last`. -/
theorem qnext_slice_last (rnd : Nat → Nat) (v : value) (xs : List GoVal) (ro : Bool)
    (rest : List String) (hne : xs ≠ []) :
    value.qnext rnd v ⟨some (.slice xs), ro⟩ ("last" :: rest) =
      if rest = [] then .node (v.new ⟨some (xs.getLast hne), ro⟩)
      else value.qnext rnd (v.new ⟨some (xs.getLast hne), ro⟩) ⟨some (xs.getLast hne), ro⟩ rest := by
  have hl : xs.length - 1 < xs.length := by
    have := List.length_pos.mpr hne; omega
  have hg : xs[xs.length - 1]? = some (xs.getLast hne) := by
    rw [List.getLast_eq_getElem, List.getElem?_eq_getElem hl]
  rw [value.qnext]
  simp [reflect.Value.IsValid, reflect.Value.Kind, GoVal.kind, reflect.Value.Len, hne,
    reflect.Value.Index, hg]

theorem new_of_root (v : value) (x : GoVal) :
    v.new ⟨some x, false⟩ = { v := x.asInterface, lastErr := none, tags := v.tags } := by
  simp [value.new, reflect.Value.IsValid, reflect.Value.CanInterface, reflect.Value.Interface]

/-! ### C1 -/

/-- C1, as stated, fails for an array, an ordered sequence that the switch
of `qnext` does not list: on the array `[3]int{10, 20, 30}` both
`Q(a, "1")` and `Q(a, "last")` return the nil `*value`, and no node. -/
theorem C1_counterexample :
    Q (fun _ => 0) DefaultTags (some (.array [.int .int 10, .int .int 20, .int .int 30]))
        ["1"] = .nilPtr ∧
      Q (fun _ => 0) DefaultTags (some (.array [.int .int 10, .int .int 20, .int .int 30]))
        ["last"] = .nilPtr := by
  constructor <;>
    (rw [Q_cons, value.qnext]
     simp [reflect.Value.IsValid, reflect.Value.Kind, GoVal.kind])

/-- C1 (amended): on a non-empty slice `s` (whose length fits an `int`),
`Q(s, decimal(i))` for `i < len(s)` returns a node without error whose raw
value is `s[i]`, and `Q(s, "last")` returns a node without error whose raw
value is `s[len(s)-1]`. -/
theorem C1_index_and_last (rnd : Nat → Nat) (tags : List String) (s : List GoVal) (i : Nat)
    (hi : i < s.length) (hlen : s.length < 2 ^ 63) :
    Q rnd tags (some (.slice s)) [toString i] =
        .node { v := (s.get ⟨i, hi⟩).asInterface, lastErr := none, tags := tags } ∧
      Q rnd tags (some (.slice s)) ["last"] =
        .node { v := (s.get ⟨s.length - 1, Nat.sub_lt (Nat.zero_lt_of_lt hi) Nat.one_pos⟩).asInterface,
                lastErr := none, tags := tags } := by
  have hne : s ≠ [] := by intro h; simp [h] at hi
  obtain ⟨hA, h1, h2, h3⟩ := Atoi_toString i (by omega)
  constructor
  · rw [Q_cons, qnext_slice_index rnd _ s false _ [] i hi h1 h2 h3 hA]
    simp [new_of_root]
  · rw [Q_cons, qnext_slice_last rnd _ s false [] hne]
    simp [new_of_root, List.getLast_eq_getElem]

theorem C1_index_and_last_witness :
    (1 < [GoVal.int .int 10, .int .int 20, .int .int 30].length ∧
      [GoVal.int .int 10, .int .int 20, .int .int 30].length < 2 ^ 63) ∧
    Q (fun _ => 0) DefaultTags (some (.slice [.int .int 10, .int .int 20, .int .int 30]))
        [toString 1] = .node { v := some (.int .int 20), lastErr := none, tags := DefaultTags } ∧
    Q (fun _ => 0) DefaultTags (some (.slice [.int .int 10, .int .int 20, .int .int 30]))
        ["last"] = .node { v := some (.int .int 30), lastErr := none, tags := DefaultTags } :=
  ⟨⟨by decide, by decide⟩,
    C1_index_and_last (fun _ => 0) DefaultTags [.int .int 10, .int .int 20, .int .int 30] 1
      (by decide) (by decide)⟩

/-! ### C2 -/

/-- One step of `qnext` into a non-empty map with `string` keys. -/
theorem qnext_map_string (rnd : Nat → Nat) (v : value) (es : List (GoKey × GoVal)) (ro : Bool)
    (q0 : String) (rest : List String) (hne : es ≠ []) :
    value.qnext rnd v ⟨some (.map .string es), ro⟩ (q0 :: rest) =
      if rest = [] then
        .node (v.new ((⟨some (.map .string es), ro⟩ : reflect.Value).MapIndex (.s q0)))
      else
        value.qnext rnd (v.new ((⟨some (.map .string es), ro⟩ : reflect.Value).MapIndex (.s q0)))
          ((⟨some (.map .string es), ro⟩ : reflect.Value).MapIndex (.s q0)) rest := by
  rw [value.qnext]
  simp [reflect.Value.IsValid, reflect.Value.Kind, GoVal.kind, reflect.Value.Len, hne,
    reflect.Value.KeyKind]

/-- In a map (no key occurs twice) the entry found under a key is the
entry of the map with that key. -/
theorem find_entry_of_mem (es : List (GoKey × GoVal)) (key : GoKey) (x : GoVal)
    (hnodup : (es.map Prod.fst).Nodup) (hmem : (key, x) ∈ es) :
    es.find? (fun kv => decide (kv.1 = key)) = some (key, x) := by
  induction es with
  | nil => simp at hmem
  | cons e es ih =>
    obtain ⟨k', x'⟩ := e
    simp only [List.map_cons, List.nodup_cons] at hnodup
    by_cases hk : k' = key
    · subst hk
      have hx : x' = x := by
        rcases List.mem_cons.mp hmem with h | h
        · exact (Prod.mk.inj h).2.symm
        · exact absurd (List.mem_map_of_mem Prod.fst h) hnodup.1
      simp [List.find?, hx]
    · have hmem' : (key, x) ∈ es := by
        rcases List.mem_cons.mp hmem with h | h
        · exact absurd (Prod.mk.inj h).1.symm hk
        · exact h
      simp [List.find?, hk, ih hnodup.2 hmem']

theorem find_entry_of_not_mem (es : List (GoKey × GoVal)) (key : GoKey)
    (h : ∀ x, (key, x) ∉ es) :
    es.find? (fun kv => decide (kv.1 = key)) = none := by
  rw [List.find?_eq_none]
  intro kv hkv hk
  simp only [decide_eq_true_eq] at hk
  exact h kv.2 (by rw [← hk]; exact hkv)

/-- C2, as stated, fails for a map whose key type is textual without being
`string` itself: on `map[KStr]string{"a": "t"}` with `type KStr string`,
`Q(m, "a")` panics, because `MapIndex` is handed a key of type `string`,
which is not assignable to `KStr`. -/
theorem C2_counterexample :
    Q (fun _ => 0) DefaultTags (some (.map .definedString [(.s "a", .str "t")])) ["a"] =
      .panics := by
  rw [Q_cons, value.qnext]
  simp [reflect.Value.IsValid, reflect.Value.Kind, GoVal.kind, reflect.Value.Len,
    reflect.Value.KeyKind]

/-- C2 (amended): on a non-empty map `m` whose key type is `string` itself,
`Q(m, k)` for a key `k` of `m` returns a node without error whose raw value
is `m[k]`; for `k` not a key of `m` it returns a node without error and
with a nil raw value, on which `Str`, `Int`, `Float64` and `Time` return
the zero value and set an error that wraps `ErrValueIsNil`. -/
theorem C2_string_map (rnd : Nat → Nat) (tags : List String) (h : Host)
    (m : List (GoKey × GoVal)) (k : String) (hne : m ≠ [])
    (hnodup : (m.map Prod.fst).Nodup) :
    (∀ x, (GoKey.s k, x) ∈ m →
      Q rnd tags (some (.map .string m)) [k] =
        .node { v := x.asInterface, lastErr := none, tags := tags }) ∧
    ((∀ x, (GoKey.s k, x) ∉ m) →
      ∃ n : value, Q rnd tags (some (.map .string m)) [k] = .node n ∧
        n.Interface = none ∧ n.Err = none ∧
        (n.Str h).1 = "" ∧
        (∃ e, (n.Str h).2.Err = some e ∧ e.Is .ErrValueIsNil = true) ∧
        (n.Int).1 = 0 ∧
        (∃ e, (n.Int).2.Err = some e ∧ e.Is .ErrValueIsNil = true) ∧
        (n.Float64 h).1 = 0 ∧
        (∃ e, (n.Float64 h).2.Err = some e ∧ e.Is .ErrValueIsNil = true) ∧
        (∃ r, n.Time h = some r ∧ r.1 = GoTime.zero ∧
          ∃ e, r.2.Err = some e ∧ e.Is .ErrValueIsNil = true)) := by
  constructor
  · intro x hx
    rw [Q_cons, qnext_map_string rnd _ m false k [] hne]
    simp [reflect.Value.MapIndex, find_entry_of_mem m _ x hnodup hx, new_of_root]
  · intro hx
    refine ⟨{ v := none, lastErr := none, tags := tags }, ?_, rfl, rfl, rfl,
      ⟨.ErrStrOfNil, rfl, by decide⟩, rfl, ⟨.ErrIntOfNil, rfl, by decide⟩, rfl,
      ⟨.ErrIntOfNil, rfl, by decide⟩,
      ⟨_, rfl, rfl, .ErrTimeOfNil, rfl, by decide⟩⟩
    rw [Q_cons, qnext_map_string rnd _ m false k [] hne]
    simp [reflect.Value.MapIndex, find_entry_of_not_mem m _ hx, value.new,
      reflect.Value.IsValid, reflect.Value.zero]

theorem C2_string_map_witness :
    ([(GoKey.s "waldo", GoVal.str "weldo"), (.s "fred", .str "flintspears")] ≠ [] ∧
      ([(GoKey.s "waldo", GoVal.str "weldo"), (.s "fred", .str "flintspears")].map
        Prod.fst).Nodup) ∧
    Q (fun _ => 0) DefaultTags
        (some (.map .string [(.s "waldo", .str "weldo"), (.s "fred", .str "flintspears")]))
        ["waldo"] = .node { v := some (.str "weldo"), lastErr := none, tags := DefaultTags } ∧
    ∃ n : value, Q (fun _ => 0) DefaultTags
        (some (.map .string [(.s "waldo", .str "weldo"), (.s "fred", .str "flintspears")]))
        ["barney"] = .node n ∧ n.Interface = none ∧ n.Err = none ∧
      (n.Int).1 = 0 ∧ (n.Int).2.Err = some .ErrIntOfNil :=
  have hne : [(GoKey.s "waldo", GoVal.str "weldo"), (.s "fred", .str "flintspears")] ≠ [] := by
    simp
  have hnd : ([(GoKey.s "waldo", GoVal.str "weldo"), (.s "fred", .str "flintspears")].map
      Prod.fst).Nodup := by decide
  ⟨⟨hne, hnd⟩,
    (C2_string_map (fun _ => 0) DefaultTags ⟨fun _ => "", fun _ _ => none, id⟩ _ "waldo" hne
      hnd).1 (.str "weldo") (by simp),
    by
      obtain ⟨n, hq, hi, he, -, -, hz, ⟨e, he1, -⟩, -⟩ :=
        (C2_string_map (fun _ => 0) DefaultTags ⟨fun _ => "", fun _ _ => none, id⟩ _ "barney"
          hne hnd).2 (by simp)
      refine ⟨n, hq, hi, he, hz, ?_⟩
      have hv : n.v = none := hi
      simp [value.Int, hv, value.Err]⟩

/-! ### Structs -/

theorem startsUpper_firstByte (q : String) (h : startsUpper q = true) :
    firstByteIsUpper q = true ∧ q.length > 0 := by
  unfold startsUpper at h
  unfold firstByteIsUpper
  have hl : q.length = q.data.length := rfl
  rw [hl]
  cases hq : q.data with
  | nil => simp [hq] at h
  | cons c cs =>
    simp only [hq] at h
    have h' : 65 ≤ c.val.toNat ∧ c.val.toNat ≤ 90 := by
      simp only [Char.isUpper, Bool.and_eq_true, decide_eq_true_eq, ge_iff_le] at h
      exact ⟨h.1, h.2⟩
    have h1 : c.toNat < 128 := by
      show c.val.toNat < 128
      omega
    have h2 : c.isLower = false := by
      simp only [Char.isLower, Bool.and_eq_false_iff, decide_eq_false_iff_not, ge_iff_le]
      left
      intro h2
      have h3 : 97 ≤ c.val.toNat := h2
      omega
    simp [h1, h2]

theorem IsExported_of_startsUpper (f : StructField GoVal) (h : startsUpper f.Name = true) :
    f.IsExported = true := by
  unfold startsUpper at h
  unfold StructField.IsExported
  cases hq : f.Name.data with
  | nil => simp [hq] at h
  | cons c cs =>
    simp only [hq] at h
    simp [unicode.IsUpper, h]

theorem firstByteIsUpper_length (q : String) (h : firstByteIsUpper q = true) : q.length > 0 := by
  unfold firstByteIsUpper at h
  have hl : q.length = q.data.length := rfl
  rw [hl]
  cases hq : q.data with
  | nil => simp [hq] at h
  | cons c cs => simp

/-- One step of `qnext` into a struct, the token being the name of a field
and passing the first-byte test. -/
theorem qnext_struct_byName (rnd : Nat → Nat) (v : value) (fs : List (StructField GoVal))
    (ro : Bool) (q0 : String) (rest : List String) (f : StructField GoVal)
    (hU : firstByteIsUpper q0 = true)
    (hfind : fs.find? (fun g => g.Name == q0) = some f) :
    value.qnext rnd v ⟨some (.struct fs), ro⟩ (q0 :: rest) =
      if rest = [] then .node (v.new ⟨some f.val, ro || !f.IsExported⟩)
      else value.qnext rnd (v.new ⟨some f.val, ro || !f.IsExported⟩)
        ⟨some f.val, ro || !f.IsExported⟩ rest := by
  have hne : fs ≠ [] := by intro h; simp [h] at hfind
  have hlen := firstByteIsUpper_length q0 hU
  rw [value.qnext]
  simp [reflect.Value.IsValid, reflect.Value.Kind, GoVal.kind, reflect.Value.NumField,
    reflect.Value.Fields, hne, hU, hlen, reflect.Value.FieldByName, hfind, reflect.Value.ofField]

/-- One step of `qnext` into a struct, the token not being resolved by name
and matching a tag of some field. -/
theorem qnext_struct_byTag (rnd : Nat → Nat) (v : value) (fs : List (StructField GoVal))
    (ro : Bool) (q0 : String) (rest : List String) (f : StructField GoVal)
    (hN : firstByteIsUpper q0 = false ∨ fs.find? (fun g => g.Name == q0) = none)
    (hfind : fs.find? (fun sfield =>
      v.tags.any (fun tlookup => StructTag.Get sfield.Tag tlookup == q0)) = some f) :
    value.qnext rnd v ⟨some (.struct fs), ro⟩ (q0 :: rest) =
      if rest = [] then .node (v.new ⟨some f.val, ro || !f.IsExported⟩)
      else value.qnext rnd (v.new ⟨some f.val, ro || !f.IsExported⟩)
        ⟨some f.val, ro || !f.IsExported⟩ rest := by
  have hne : fs ≠ [] := by intro h; simp [h] at hfind
  rw [value.qnext]
  rcases hN with hN | hN
  · simp [reflect.Value.IsValid, reflect.Value.Kind, GoVal.kind, reflect.Value.NumField,
      reflect.Value.Fields, hne, hN, reflect.Value.zero, hfind, reflect.Value.ofField]
  · by_cases hc : q0.length > 0 ∧ firstByteIsUpper q0 = true
    · simp [reflect.Value.IsValid, reflect.Value.Kind, GoVal.kind, reflect.Value.NumField,
        reflect.Value.Fields, hne, hc, reflect.Value.FieldByName, hN, reflect.Value.zero, hfind,
        reflect.Value.ofField]
    · simp only [reflect.Value.IsValid, reflect.Value.Kind, GoVal.kind, reflect.Value.NumField,
        reflect.Value.Fields, hc, if_false]
      simp [hne, reflect.Value.zero, hfind, reflect.Value.ofField]

/-- One step of `qnext` into a struct with fields, the token resolved
neither by name nor by tag. -/
theorem qnext_struct_notFound (rnd : Nat → Nat) (v : value) (fs : List (StructField GoVal))
    (ro : Bool) (q0 : String) (rest : List String) (hne : fs ≠ [])
    (hN : firstByteIsUpper q0 = false ∨ fs.find? (fun g => g.Name == q0) = none)
    (hfind : fs.find? (fun sfield =>
      v.tags.any (fun tlookup => StructTag.Get sfield.Tag tlookup == q0)) = none) :
    value.qnext rnd v ⟨some (.struct fs), ro⟩ (q0 :: rest) =
      .node (v.fail .ErrStructFieldNotFound) := by
  rw [value.qnext]
  rcases hN with hN | hN
  · simp [reflect.Value.IsValid, reflect.Value.Kind, GoVal.kind, reflect.Value.NumField,
      reflect.Value.Fields, hne, hN, reflect.Value.zero, hfind]
  · by_cases hc : q0.length > 0 ∧ firstByteIsUpper q0 = true
    · simp [reflect.Value.IsValid, reflect.Value.Kind, GoVal.kind, reflect.Value.NumField,
        reflect.Value.Fields, hne, hc, reflect.Value.FieldByName, hN, reflect.Value.zero, hfind]
    · simp only [reflect.Value.IsValid, reflect.Value.Kind, GoVal.kind, reflect.Value.NumField,
        reflect.Value.Fields, hc, if_false]
      simp [hne, reflect.Value.zero, hfind]

theorem fail_eq (v : value) (e : GoError) :
    v.fail e = { v := none, lastErr := some e, tags := v.tags } := by
  simp [value.fail, value.new, reflect.ValueOf, reflect.Value.IsValid]

theorem new_of_field (v : value) (f : StructField GoVal) :
    v.new ⟨some f.val, false || !f.IsExported⟩ =
      { v := if f.IsExported then f.val.asInterface else none, lastErr := none,
        tags := v.tags } := by
  cases hE : f.IsExported <;>
    simp [value.new, reflect.Value.IsValid, reflect.Value.CanInterface,
      reflect.Value.Interface]

/-- The field found under a name is the field of that name, when no other
field bears it. -/
theorem find_name_of_mem (fs : List (StructField GoVal)) (f : StructField GoVal) (hf : f ∈ fs)
    (huniq : ∀ g ∈ fs, g.Name = f.Name → g = f) :
    fs.find? (fun g => g.Name == f.Name) = some f := by
  cases hfind : fs.find? (fun g => g.Name == f.Name) with
  | none =>
    rw [List.find?_eq_none] at hfind
    exact absurd (by simp) (hfind f hf)
  | some g =>
    have h1 := List.find?_some hfind
    have h2 := List.mem_of_find?_eq_some hfind
    simp only [beq_iff_eq] at h1
    rw [huniq g h2 h1]

/-- The scan of the tags stops at the first field that matches. -/
theorem find_tag_first (tags : List String) (pre post : List (StructField GoVal))
    (f : StructField GoVal) (a : String)
    (hf : ∃ k ∈ tags, StructTag.Get f.Tag k = a)
    (hpre : ∀ g ∈ pre, ∀ k ∈ tags, StructTag.Get g.Tag k ≠ a) :
    (pre ++ f :: post).find? (fun sfield =>
      tags.any (fun tlookup => StructTag.Get sfield.Tag tlookup == a)) = some f := by
  induction pre with
  | nil =>
    obtain ⟨k, hk, hv⟩ := hf
    have : tags.any (fun tlookup => StructTag.Get f.Tag tlookup == a) = true := by
      rw [List.any_eq_true]; exact ⟨k, hk, by simp [hv]⟩
    simp [List.find?, this]
  | cons g pre ih =>
    have hg : tags.any (fun tlookup => StructTag.Get g.Tag tlookup == a) = false := by
      rw [List.any_eq_false]
      intro k hk
      simpa using hpre g (List.mem_cons_self _ _) k hk
    simp only [List.cons_append, List.find?, hg]
    exact ih (fun g' hg' => hpre g' (List.mem_cons_of_mem _ hg'))

/-! ### C5 -/

/-- A query of a struct by the name of an exported field returns the node
wrapping the value of that field. -/
theorem query_by_name (rnd : Nat → Nat) (tags : List String)
    (fs : List (StructField GoVal)) (f : StructField GoVal) (hf : f ∈ fs)
    (hup : startsUpper f.Name = true)
    (huniq : ∀ g ∈ fs, g.Name = f.Name → g = f) :
    Q rnd tags (some (.struct fs)) [f.Name] =
      .node { v := f.val.asInterface, lastErr := none, tags := tags } := by
  have hE : f.IsExported = true := IsExported_of_startsUpper f hup
  rw [Q_cons, qnext_struct_byName rnd _ fs false f.Name [] f (startsUpper_firstByte _ hup).1
    (find_name_of_mem fs f hf huniq)]
  simp [hE, new_of_root]


/-- C5, as stated, fails for an upper-case letter outside ASCII: the test
before the name lookup looks at the first byte of the token, and the first
byte of `É` is no ASCII letter.  On a struct whose only field is the
exported field `Émile`, `Q(r, "Émile")` skips the name lookup and ends in
`ErrStructFieldNotFound`. -/
theorem C5_counterexample :
    (⟨"Émile", [], GoVal.int .int 42⟩ : StructField GoVal).IsExported = true ∧
      Q (fun _ => 0) DefaultTags (some (.struct [⟨"Émile", [], .int .int 42⟩])) ["Émile"] =
        .node { v := none, lastErr := some .ErrStructFieldNotFound, tags := DefaultTags } := by
  refine ⟨by decide, ?_⟩
  rw [Q_cons, qnext_struct_notFound (fun _ => 0) _ _ false "Émile" [] (by simp)
    (Or.inl (by decide)) (by rfl), fail_eq]

/-- C5 (amended): for a struct with a field `f` whose name `N` starts with
an ASCII upper-case letter, `A` to `Z` (no other field bears the name),
`Q(r, N)` returns the node wrapping the value of `f`, whatever the tags of
the fields declared before it. -/
theorem C5_exact_name_first (rnd : Nat → Nat) (tags : List String)
    (fs : List (StructField GoVal)) (f : StructField GoVal) (hf : f ∈ fs)
    (hup : startsUpper f.Name = true)
    (huniq : ∀ g ∈ fs, g.Name = f.Name → g = f) :
    Q rnd tags (some (.struct fs)) [f.Name] =
      .node { v := f.val.asInterface, lastErr := none, tags := tags } :=
  query_by_name rnd tags fs f hf hup huniq

theorem C5_exact_name_first_witness :
    Q (fun _ => 0) DefaultTags
        (some (.struct [⟨"Nick", [("json", "Age")], .str "Bo"⟩,
          ⟨"Age", [("json", "age")], .int .int 42⟩])) ["Age"] =
      .node { v := some (.int .int 42), lastErr := none, tags := DefaultTags } :=
  C5_exact_name_first (fun _ => 0) DefaultTags
    [⟨"Nick", [("json", "Age")], .str "Bo"⟩, ⟨"Age", [("json", "age")], .int .int 42⟩]
    ⟨"Age", [("json", "age")], .int .int 42⟩ (by simp) (by decide)
    (by
      intro g hg hn
      simp only [List.mem_cons, List.mem_singleton, List.not_mem_nil, or_false] at hg
      rcases hg with rfl | rfl
      · simp at hn
      · rfl)

/-! ### C3 -/

/-- C3, as stated, fails for an upper-case letter outside ASCII: on a
struct whose only field is the exported field `Émile`, tagged
`json:"e"`, `Q(r, "e")` returns the node wrapping the value of the field,
but `Q(r, "Émile")` skips the name lookup (the first byte of `É` is no
ASCII letter) and ends in `ErrStructFieldNotFound`. -/
theorem C3_counterexample :
    (⟨"Émile", [("json", "e")], GoVal.str "x"⟩ : StructField GoVal).IsExported = true ∧
      Q (fun _ => 0) DefaultTags (some (.struct [⟨"Émile", [("json", "e")], .str "x"⟩]))
          ["Émile"] =
        .node { v := none, lastErr := some .ErrStructFieldNotFound, tags := DefaultTags } ∧
      Q (fun _ => 0) DefaultTags (some (.struct [⟨"Émile", [("json", "e")], .str "x"⟩]))
          ["e"] =
        .node { v := some (.str "x"), lastErr := none, tags := DefaultTags } := by
  refine ⟨by decide, ?_, ?_⟩
  · rw [Q_cons, qnext_struct_notFound (fun _ => 0) _ _ false "Émile" [] (by simp)
      (Or.inl (by decide)) (by rfl), fail_eq]
  · rw [Q_cons, qnext_struct_byTag (fun _ => 0) _ _ false "e" []
      ⟨"Émile", [("json", "e")], .str "x"⟩ (Or.inl (by decide)) (by rfl)]
    simp [new_of_root, GoVal.asInterface, StructField.IsExported, unicode.IsUpper]

/-- C3 (amended): for a struct with a field `f` whose name `N` starts with
an ASCII upper-case letter, `A` to `Z`, and whose tag has value `a` under a
key of the tag list of the node, where no field declared before `f` has
value `a` under a key of the list and `a` is not the name of another field,
`Q(r, N)` and `Q(r, a)` both return the node wrapping the value of `f`,
without error.  The value of a tag under a key is what `Tag.Get` returns. -/
theorem C3_name_and_annotation (rnd : Nat → Nat) (tags : List String)
    (pre post : List (StructField GoVal)) (f : StructField GoVal) (key a : String)
    (hup : startsUpper f.Name = true)
    (huniq : ∀ g ∈ pre ++ f :: post, g.Name = f.Name → g = f)
    (hkey : key ∈ tags) (hval : StructTag.Get f.Tag key = a)
    (hpre : ∀ g ∈ pre, ∀ k ∈ tags, StructTag.Get g.Tag k ≠ a)
    (hname : ∀ g ∈ pre ++ f :: post, g.Name = a → g = f) :
    Q rnd tags (some (.struct (pre ++ f :: post))) [f.Name] =
        .node { v := f.val.asInterface, lastErr := none, tags := tags } ∧
      Q rnd tags (some (.struct (pre ++ f :: post))) [a] =
        .node { v := f.val.asInterface, lastErr := none, tags := tags } := by
  have hE : f.IsExported = true := IsExported_of_startsUpper f hup
  have hf : f ∈ pre ++ f :: post := by simp
  refine ⟨query_by_name rnd tags _ f hf hup huniq, ?_⟩
  have htag := find_tag_first tags pre post f a ⟨key, hkey, hval⟩ hpre
  rw [Q_cons]
  cases hfind : (pre ++ f :: post).find? (fun g => g.Name == a) with
  | none =>
    rw [qnext_struct_byTag rnd _ _ false a [] f (Or.inr hfind) htag]
    simp [hE, new_of_root]
  | some g =>
    have h1 := List.find?_some hfind
    have h2 := List.mem_of_find?_eq_some hfind
    simp only [beq_iff_eq] at h1
    have hg : g = f := hname g h2 h1
    subst hg
    cases hU : firstByteIsUpper a with
    | false =>
      rw [qnext_struct_byTag rnd _ _ false a [] g (Or.inl hU) htag]
      simp [hE, new_of_root]
    | true =>
      rw [qnext_struct_byName rnd _ _ false a [] g hU hfind]
      simp [hE, new_of_root]

theorem C3_name_and_annotation_witness :
    Q (fun _ => 0) DefaultTags (some (.struct
        ([⟨"A", [("json", "a")], .str "real nice"⟩, ⟨"Age", [("json", "age")], .int .int 42⟩] ++
          ⟨"MapItems", [("header", "map_items"), ("xml", "xmap-items")],
            .map .string [(.s "waldo", .str "weldo")]⟩ :: []))) ["MapItems"] =
        .node { v := some (.map .string [(.s "waldo", .str "weldo")]), lastErr := none,
                tags := DefaultTags } ∧
      Q (fun _ => 0) DefaultTags (some (.struct
        ([⟨"A", [("json", "a")], .str "real nice"⟩, ⟨"Age", [("json", "age")], .int .int 42⟩] ++
          ⟨"MapItems", [("header", "map_items"), ("xml", "xmap-items")],
            .map .string [(.s "waldo", .str "weldo")]⟩ :: []))) ["xmap-items"] =
        .node { v := some (.map .string [(.s "waldo", .str "weldo")]), lastErr := none,
                tags := DefaultTags } :=
  C3_name_and_annotation (fun _ => 0) DefaultTags
    [⟨"A", [("json", "a")], .str "real nice"⟩, ⟨"Age", [("json", "age")], .int .int 42⟩] []
    ⟨"MapItems", [("header", "map_items"), ("xml", "xmap-items")],
      .map .string [(.s "waldo", .str "weldo")]⟩ "xml" "xmap-items"
    (by decide)
    (by
      intro g hg hn
      simp only [List.cons_append, List.nil_append, List.mem_cons, List.not_mem_nil,
        or_false] at hg
      rcases hg with rfl | rfl | rfl
      · simp at hn
      · simp at hn
      · rfl)
    (by decide) (by decide)
    (by
      intro g hg k hk
      simp only [List.mem_cons, List.not_mem_nil, or_false] at hg
      simp only [DefaultTags, List.mem_cons, List.not_mem_nil, or_false] at hk
      rcases hg with rfl | rfl <;> rcases hk with rfl | rfl | rfl | rfl | rfl <;> decide)
    (by
      intro g hg hn
      simp only [List.cons_append, List.nil_append, List.mem_cons, List.not_mem_nil,
        or_false] at hg
      rcases hg with rfl | rfl | rfl
      · simp at hn
      · simp at hn
      · rfl)

/-! ### C6 -/

/-- C6, as stated, fails: with tag list `[json, xml]`, a first field `nick`
tagged `xml:"n"` and a second field `Other` tagged `json:"n"`, the query
`n` selects the first field, but that field is unexported, so the node
returned has a nil raw value and not the value of the field. -/
theorem C6_counterexample :
    Q (fun _ => 0) ["json", "xml"]
        (some (.struct [⟨"nick", [("xml", "n")], .str "Bo"⟩,
          ⟨"Other", [("json", "n")], .str "Al"⟩])) ["n"] =
      .node { v := none, lastErr := none, tags := ["json", "xml"] } ∧
    Q (fun _ => 0) ["json", "xml"]
        (some (.struct [⟨"nick", [("xml", "n")], .str "Bo"⟩,
          ⟨"Other", [("json", "n")], .str "Al"⟩])) ["n"] ≠
      .node { v := some (.str "Bo"), lastErr := none, tags := ["json", "xml"] } := by
  have h : Q (fun _ => 0) ["json", "xml"]
        (some (.struct [⟨"nick", [("xml", "n")], .str "Bo"⟩,
          ⟨"Other", [("json", "n")], .str "Al"⟩])) ["n"] =
      .node { v := none, lastErr := none, tags := ["json", "xml"] } := by
    rw [Q_cons, qnext_struct_byTag (fun _ => 0) _ _ false "n" []
      ⟨"nick", [("xml", "n")], .str "Bo"⟩ (Or.inl (by decide)) (by rfl)]
    simp [value.new, reflect.Value.IsValid, reflect.Value.CanInterface,
      StructField.IsExported, unicode.IsUpper]
  refine ⟨h, ?_⟩
  rw [h]
  intro h2
  cases h2

/-- C6 (amended): when a token is not resolved by name, the field selected
is the first field, in declaration order, whose tag has the token as its
value under some key of the tag list, whatever the place of that key in the
list; the node returned wraps the value of that field when the field is
exported and has a nil raw value when it is not. -/
theorem C6_first_field_wins (rnd : Nat → Nat) (tags : List String)
    (pre post : List (StructField GoVal)) (f : StructField GoVal) (a : String)
    (hres : firstByteIsUpper a = false ∨ ∀ g ∈ pre ++ f :: post, g.Name ≠ a)
    (hf : ∃ k ∈ tags, StructTag.Get f.Tag k = a)
    (hpre : ∀ g ∈ pre, ∀ k ∈ tags, StructTag.Get g.Tag k ≠ a) :
    Q rnd tags (some (.struct (pre ++ f :: post))) [a] =
      .node { v := if f.IsExported then f.val.asInterface else none, lastErr := none,
              tags := tags } := by
  have htag := find_tag_first tags pre post f a hf hpre
  have hN : firstByteIsUpper a = false ∨
      (pre ++ f :: post).find? (fun g => g.Name == a) = none := by
    rcases hres with h | h
    · exact Or.inl h
    · right
      rw [List.find?_eq_none]
      intro g hg
      simpa using h g hg
  rw [Q_cons, qnext_struct_byTag rnd _ _ false a [] f hN htag, if_pos rfl, new_of_field]

theorem C6_first_field_wins_witness :
    Q (fun _ => 0) ["json", "xml"]
        (some (.struct ([] ++ ⟨"First", [("xml", "n")], .str "Bo"⟩ ::
          [⟨"Other", [("json", "n")], .str "Al"⟩]))) ["n"] =
      .node { v := some (.str "Bo"), lastErr := none, tags := ["json", "xml"] } :=
  C6_first_field_wins (fun _ => 0) ["json", "xml"] []
    [⟨"Other", [("json", "n")], .str "Al"⟩] ⟨"First", [("xml", "n")], .str "Bo"⟩ "n"
    (Or.inl (by decide)) ⟨"xml", by decide, by decide⟩ (by simp)

/-! ### C7 -/

/-- C7 fails on the empty token: the struct `{A: 7}` has no field named
`""` and no tag at all, yet `Q(r, "")` returns the node wrapping the value
of `A`, without error: `Tag.Get` gives the empty string for a key the tag
lacks, and the scan compares that with the token. -/
theorem C7_empty_token :
    (∀ f ∈ [(⟨"A", [], .int .int 7⟩ : StructField GoVal)], f.Name ≠ "") ∧
    (∀ f ∈ [(⟨"A", [], .int .int 7⟩ : StructField GoVal)], ∀ kv ∈ f.Tag,
      ¬ (kv.1 ∈ DefaultTags ∧ kv.2 = "")) ∧
    Q (fun _ => 0) DefaultTags (some (.struct [⟨"A", [], .int .int 7⟩])) [""] =
      .node { v := some (.int .int 7), lastErr := none, tags := DefaultTags } := by
  refine ⟨by simp, by simp, ?_⟩
  rw [Q_cons, qnext_struct_byTag (fun _ => 0) _ _ false "" []
    ⟨"A", [], .int .int 7⟩ (Or.inl (by decide)) (by rfl)]
  simp [value.new, reflect.Value.IsValid, reflect.Value.CanInterface,
    StructField.IsExported, unicode.IsUpper, reflect.Value.Interface, GoVal.asInterface]

/-- For a token that is not empty the scan of a struct does end in
`ErrStructFieldNotFound`: no field bears the token as its name and no tag
holds it under a key of the tag list. -/
theorem struct_field_not_found (rnd : Nat → Nat) (tags : List String)
    (fs : List (StructField GoVal)) (t : String) (hne : fs ≠ []) (ht : t ≠ "")
    (hname : ∀ f ∈ fs, f.Name ≠ t)
    (htag : ∀ f ∈ fs, ∀ kv ∈ f.Tag, ¬ (kv.1 ∈ tags ∧ kv.2 = t)) :
    Q rnd tags (some (.struct fs)) [t] =
      .node { v := none, lastErr := some .ErrStructFieldNotFound, tags := tags } := by
  have hN : fs.find? (fun g => g.Name == t) = none := by
    rw [List.find?_eq_none]
    intro g hg
    simpa using hname g hg
  have hT : fs.find? (fun sfield =>
      tags.any (fun tlookup => StructTag.Get sfield.Tag tlookup == t)) = none := by
    rw [List.find?_eq_none]
    intro g hg
    simp only [List.any_eq_true, beq_iff_eq, not_exists, not_and]
    intro k hk hget
    unfold StructTag.Get at hget
    cases hfind : g.Tag.find? (fun kv => kv.1 == k) with
    | none => rw [hfind] at hget; exact ht hget.symm
    | some kv =>
      rw [hfind] at hget
      have h1 := List.find?_some hfind
      have h2 := List.mem_of_find?_eq_some hfind
      simp only [beq_iff_eq] at h1
      exact htag g hg kv h2 ⟨h1 ▸ hk, hget⟩
  rw [Q_cons, qnext_struct_notFound rnd _ fs false t [] hne (Or.inr hN) hT, fail_eq]

/-! ### C8 -/

/-- One step of `qnext` into a non-empty slice with a token `Atoi`
rejects. -/
theorem qnext_slice_nonInteger (rnd : Nat → Nat) (v : value) (xs : List GoVal) (ro : Bool)
    (q0 : String) (rest : List String) (hne : xs ≠ [])
    (h1 : q0 ≠ "last") (h2 : q0 ≠ "random") (h3 : q0 ≠ "rand")
    (hA : strconv.Atoi q0 = none) :
    value.qnext rnd v ⟨some (.slice xs), ro⟩ (q0 :: rest) =
      .node (v.fail .ErrNonIntegerIndexForSlice) := by
  rw [value.qnext]
  simp [reflect.Value.IsValid, reflect.Value.Kind, GoVal.kind, reflect.Value.Len, hne, h1, h2, h3,
    hA]

/-- One step of `qnext` into a non-empty slice with a token `Atoi` reads
as a number that is not an index of the slice. -/
theorem qnext_slice_outOfBounds (rnd : Nat → Nat) (v : value) (xs : List GoVal) (ro : Bool)
    (q0 : String) (rest : List String) (n : Int) (hne : xs ≠ [])
    (h1 : q0 ≠ "last") (h2 : q0 ≠ "random") (h3 : q0 ≠ "rand")
    (hA : strconv.Atoi q0 = some n) (hout : n < 0 ∨ n ≥ xs.length) :
    value.qnext rnd v ⟨some (.slice xs), ro⟩ (q0 :: rest) =
      .node (v.fail .ErrIndexOutOfBoundsForSlice) := by
  rw [value.qnext]
  simp only [reflect.Value.IsValid, reflect.Value.Kind, GoVal.kind, reflect.Value.Len, hA]
  simp only [List.length_eq_zero, hne, h1, h2, h3, if_false, false_or, if_pos hout]
  simp

/-- C8, as stated, fails twice.  For a numeral beyond the range of `int`:
on a slice of three elements the token `9223372036854775808` (2^63) is
answered with `ErrNonIntegerIndexForSlice`, not
`ErrIndexOutOfBoundsForSlice`.  And for an array, an ordered sequence that
the switch of `qnext` does not list: on an array of three elements
`Q(a, "99")` returns the nil `*value`, and no node. -/
theorem C8_counterexample :
    Q (fun _ => 0) DefaultTags (some (.slice [.int .int 1, .int .int 2, .int .int 3]))
        ["9223372036854775808"] =
      .node { v := none, lastErr := some .ErrNonIntegerIndexForSlice, tags := DefaultTags } ∧
    Q (fun _ => 0) DefaultTags (some (.array [.int .int 1, .int .int 2, .int .int 3]))
        ["99"] = .nilPtr := by
  constructor
  · rw [Q_cons, qnext_slice_nonInteger (fun _ => 0) _ _ false _ [] (by simp) (by decide)
      (by decide) (by decide) (by decide), fail_eq]
  · rw [Q_cons, value.qnext]
    simp [reflect.Value.IsValid, reflect.Value.Kind, GoVal.kind]

/-- C8 (amended): on a non-empty slice `s`, a base-10 numeral (optional
sign, then digits) that denotes an integer `n` with `n < 0` or `n ≥ len(s)`
is answered with a node of nil raw value that carries
`ErrIndexOutOfBoundsForSlice` when `n` lies in the range of `int`
(`-2^63 ≤ n < 2^63`), and `ErrNonIntegerIndexForSlice` when it does not. -/
theorem C8_index_out_of_bounds (rnd : Nat → Nat) (tags : List String) (s : List GoVal)
    (sg : Sign) (ds : List (Fin 10)) (hs : s ≠ []) (hds : ds ≠ [])
    (hout : numeralValue sg ds < 0 ∨ numeralValue sg ds ≥ s.length) :
    Q rnd tags (some (.slice s)) [numeral sg ds] =
      .node { v := none
              lastErr := some (if -(2 : Int) ^ 63 ≤ numeralValue sg ds ∧ numeralValue sg ds < 2 ^ 63
                then .ErrIndexOutOfBoundsForSlice else .ErrNonIntegerIndexForSlice)
              tags := tags } := by
  obtain ⟨h1, h2, h3⟩ := numeral_ne_keyword sg ds hds
  have hA := Atoi_numeral sg ds hds
  by_cases hr : -(2 : Int) ^ 63 ≤ numeralValue sg ds ∧ numeralValue sg ds < 2 ^ 63
  · rw [if_pos hr] at hA
    rw [Q_cons, qnext_slice_outOfBounds rnd _ s false _ [] _ hs h1 h2 h3 hA hout, fail_eq,
      if_pos hr]
  · rw [if_neg hr] at hA
    rw [Q_cons, qnext_slice_nonInteger rnd _ s false _ [] hs h1 h2 h3 hA, fail_eq, if_neg hr]

theorem C8_index_out_of_bounds_witness :
    numeral .none [9, 9] = "99" ∧ numeralValue .none [9, 9] = 99 ∧
    Q (fun _ => 0) DefaultTags (some (.slice [.int .int 1, .int .int 2, .int .int 3]))
        [numeral .none [9, 9]] =
      .node { v := none, lastErr := some .ErrIndexOutOfBoundsForSlice, tags := DefaultTags } :=
  ⟨by decide, by decide,
    C8_index_out_of_bounds (fun _ => 0) DefaultTags [.int .int 1, .int .int 2, .int .int 3]
      .none [9, 9] (by simp) (by simp) (Or.inr (by decide))⟩

/-! ### C9 -/

/-- C9 fails for the slice: with at least one token, an empty map is
answered with `ErrQueryEmptyMap` and a struct without fields with
`ErrQueryEmptyStruct`, but an empty slice is answered with
`ErrQueryNilValue`, the error of a nil root, and not with
`ErrQueryEmptySlice`.  The raw value is nil in the three cases. -/
theorem C9_empty_containers (rnd : Nat → Nat) (tags : List String) (q0 : String)
    (rest : List String) (kk : KeyKind) :
    Q rnd tags (some (.slice [])) (q0 :: rest) =
        .node { v := none, lastErr := some .ErrQueryNilValue, tags := tags } ∧
      Q rnd tags (some (.map kk [])) (q0 :: rest) =
        .node { v := none, lastErr := some .ErrQueryEmptyMap, tags := tags } ∧
      Q rnd tags (some (.struct [])) (q0 :: rest) =
        .node { v := none, lastErr := some .ErrQueryEmptyStruct, tags := tags } ∧
      Q rnd tags none (q0 :: rest) =
        .node { v := none, lastErr := some .ErrQueryNilValue, tags := tags } ∧
      GoError.ErrQueryNilValue ≠ GoError.ErrQueryEmptySlice := by
  refine ⟨?_, ?_, ?_, ?_, by decide⟩
  · rw [Q_cons, value.qnext]
    simp [reflect.Value.IsValid, reflect.Value.Kind, GoVal.kind, reflect.Value.Len, fail_eq]
  · rw [Q_cons, value.qnext]
    simp [reflect.Value.IsValid, reflect.Value.Kind, GoVal.kind, reflect.Value.Len, fail_eq]
  · rw [Q_cons, value.qnext]
    simp [reflect.Value.IsValid, reflect.Value.Kind, GoVal.kind, reflect.Value.NumField,
      reflect.Value.Fields, fail_eq]
  · simp [Q, value.Q]

/-! ### C10 -/

/-- C10 fails: for a value that is no pointer, slice, map or struct and at
least one token, `qnext` builds the node carrying
`ErrUnsupportedTypeForQuery` and then returns `nil`: `Q` returns the nil
`*value`, on which `Err()` and `Interface()` panic. -/
theorem C10_unsupported_returns_nil (rnd : Nat → Nat) (tags : List String) (x : GoVal)
    (q0 : String) (rest : List String)
    (hk : x.kind ≠ .Ptr ∧ x.kind ≠ .Slice ∧ x.kind ≠ .Map ∧ x.kind ≠ .Struct) :
    Q rnd tags (some x) (q0 :: rest) = .nilPtr ∧
      (Q rnd tags (some x) (q0 :: rest)).Err = none ∧
      (Q rnd tags (some x) (q0 :: rest)).Interface = none := by
  have h : Q rnd tags (some x) (q0 :: rest) = .nilPtr := by
    rw [Q_cons, value.qnext]
    cases x with
    | int k n =>
      cases k <;> simp [reflect.Value.IsValid, reflect.Value.Kind, GoVal.kind, IntKind.toKind]
    | definedInt k n =>
      cases k <;> simp [reflect.Value.IsValid, reflect.Value.Kind, GoVal.kind, IntKind.toKind]
    | misc k =>
      cases k <;> simp [reflect.Value.IsValid, reflect.Value.Kind, GoVal.kind, MiscKind.toKind]
    | _ => simp_all [reflect.Value.IsValid, reflect.Value.Kind, GoVal.kind]
  rw [h]
  exact ⟨rfl, rfl, rfl⟩

theorem C10_unsupported_returns_nil_witness :
    ((GoVal.int .int 42).kind ≠ .Ptr ∧ (GoVal.int .int 42).kind ≠ .Slice ∧
      (GoVal.int .int 42).kind ≠ .Map ∧ (GoVal.int .int 42).kind ≠ .Struct) ∧
    Q (fun _ => 0) DefaultTags (some (.int .int 42)) ["a"] = .nilPtr ∧
    (Q (fun _ => 0) DefaultTags (some (.int .int 42)) ["a"]).Err = none ∧
    (Q (fun _ => 0) DefaultTags (some (.int .int 42)) ["a"]).Interface = none :=
  ⟨by decide, C10_unsupported_returns_nil (fun _ => 0) DefaultTags (.int .int 42) "a" []
    (by decide)⟩

/-! ### One step of the resolver, whatever follows -/

theorem qnext_ptr (rnd : Nat → Nat) (v : value) (y : GoVal) (ro : Bool) (q0 : String)
    (rest : List String) :
    value.qnext rnd v ⟨some (.ptr y), ro⟩ (q0 :: rest) =
      value.qnext rnd v ⟨some y, ro⟩ (q0 :: rest) := by
  rw [value.qnext]
  simp [reflect.Value.IsValid, reflect.Value.Kind, GoVal.kind, reflect.Value.Elem]

theorem qnext_zero (rnd : Nat → Nat) (v : value) (ro : Bool) (q0 : String)
    (rest : List String) :
    value.qnext rnd v ⟨none, ro⟩ (q0 :: rest) = .panics := by
  rw [value.qnext]
  simp [reflect.Value.IsValid]

theorem qnext_nilptr (rnd : Nat → Nat) (v : value) (e : Kind) (ro : Bool) (q0 : String)
    (rest : List String) :
    value.qnext rnd v ⟨some (.nilptr e), ro⟩ (q0 :: rest) = .panics := by
  rw [value.qnext]
  simp [reflect.Value.IsValid, reflect.Value.Kind, GoVal.kind, reflect.Value.Elem,
    reflect.Value.zero, qnext_zero]

theorem qnext_nilTimePtr (rnd : Nat → Nat) (v : value) (ro : Bool) (q0 : String)
    (rest : List String) :
    value.qnext rnd v ⟨some .nilTimePtr, ro⟩ (q0 :: rest) = .panics := by
  rw [value.qnext]
  simp [reflect.Value.IsValid, reflect.Value.Kind, GoVal.kind, reflect.Value.Elem,
    reflect.Value.zero, qnext_zero]

/-- One step of `qnext` into a non-empty map with integer keys. -/
theorem qnext_map_integral (rnd : Nat → Nat) (v : value) (k : IntKind)
    (es : List (GoKey × GoVal)) (ro : Bool) (q0 : String) (rest : List String) (hne : es ≠ []) :
    value.qnext rnd v ⟨some (.map (.integral k) es), ro⟩ (q0 :: rest) =
      match strconv.Atoi q0 with
      | none => .node (v.fail .ErrInvalidKeyTypeForMapQuery)
      | some sconv =>
        if rest = [] then
          .node (v.new ((⟨some (.map (.integral k) es), ro⟩ : reflect.Value).MapIndex
            (.i (k.convert sconv))))
        else
          value.qnext rnd
            (v.new ((⟨some (.map (.integral k) es), ro⟩ : reflect.Value).MapIndex
              (.i (k.convert sconv))))
            ((⟨some (.map (.integral k) es), ro⟩ : reflect.Value).MapIndex
              (.i (k.convert sconv))) rest := by
  rw [value.qnext]
  simp only [reflect.Value.IsValid, reflect.Value.Kind, GoVal.kind, reflect.Value.Len,
    reflect.Value.KeyKind]
  cases hA : strconv.Atoi q0 <;> simp [hne]

/-- The outcome of a map lookup, as `qnext` continues from it: either an
entry of the map, or the zero `Value`. -/
theorem MapIndex_cases (kk : KeyKind) (es : List (GoKey × GoVal)) (ro : Bool) (key : GoKey) :
    (∃ c, c ∈ es.map (fun kv => kv.2) ∧
      (⟨some (.map kk es), ro⟩ : reflect.Value).MapIndex key = ⟨some c, ro⟩) ∨
    (⟨some (.map kk es), ro⟩ : reflect.Value).MapIndex key = reflect.Value.zero := by
  cases hfind : es.find? (fun kv => decide (kv.1 = key)) with
  | none => right; simp only [reflect.Value.MapIndex, hfind]
  | some kv =>
    left
    refine ⟨kv.2, List.mem_map_of_mem _ (List.mem_of_find?_eq_some hfind), ?_⟩
    simp only [reflect.Value.MapIndex, hfind]

theorem new_zero (v : value) :
    (v.new reflect.Value.zero).v = none := by
  simp [value.new, reflect.Value.zero, reflect.Value.IsValid]

/-- What one token does, uniformly in the tokens that follow it.  Either the
token selects a location `c` inside the value (behind its pointers) and the
resolver goes on from `c`; or the token alone already gives something other
than a node with a raw value: a node with a nil raw value (an error, or a
key the map lacks), the nil pointer, or a panic. -/
theorem qnext_step (rnd : Nat → Nat) (v : value) (t : String)
    (ht : t ≠ "random" ∧ t ≠ "rand") (d : Nat) :
    ∀ (x : GoVal) (ro : Bool), x.ptrDepth = d →
      (∃ c ro', c ∈ x.slots ∧ (ro' = false → ro = false) ∧ ∀ rest,
        value.qnext rnd v ⟨some x, ro⟩ (t :: rest) =
          if rest = [] then .node (v.new ⟨some c, ro'⟩)
          else value.qnext rnd (v.new ⟨some c, ro'⟩) ⟨some c, ro'⟩ rest) ∨
      (∃ o, (∀ n, o = .node n → n.v = none) ∧
        value.qnext rnd v ⟨some x, ro⟩ [t] = o) := by
  induction d with
  | zero =>
    intro x ro hd
    cases x with
    | ptr y => simp [GoVal.ptrDepth] at hd
    | nilptr e => simp [GoVal.ptrDepth] at hd
    | nilTimePtr => simp [GoVal.ptrDepth] at hd
    | slice xs =>
      by_cases hne : xs = []
      · right
        refine ⟨.node (v.fail .ErrQueryNilValue), ?_, ?_⟩
        · intro n hn; cases hn; simp [fail_eq]
        · rw [value.qnext]
          simp [reflect.Value.IsValid, reflect.Value.Kind, GoVal.kind, reflect.Value.Len, hne]
      · by_cases hlast : t = "last"
        · left
          subst hlast
          exact ⟨xs.getLast hne, ro, List.getLast_mem hne, id,
            fun rest => qnext_slice_last rnd v xs ro rest hne⟩
        · cases hA : strconv.Atoi t with
          | none =>
            right
            refine ⟨.node (v.fail .ErrNonIntegerIndexForSlice), ?_,
              qnext_slice_nonInteger rnd v xs ro t [] hne hlast ht.1 ht.2 hA⟩
            intro n hn; cases hn; simp [fail_eq]
          | some n =>
            by_cases hout : n < 0 ∨ n ≥ xs.length
            · right
              refine ⟨.node (v.fail .ErrIndexOutOfBoundsForSlice), ?_,
                qnext_slice_outOfBounds rnd v xs ro t [] n hne hlast ht.1 ht.2 hA hout⟩
              intro n hn; cases hn; simp [fail_eq]
            · left
              have hi : n.toNat < xs.length := by omega
              have hn : n = (n.toNat : Int) := by omega
              rw [hn] at hA
              exact ⟨xs.get ⟨n.toNat, hi⟩, ro, List.get_mem _ _ _, id,
                fun rest => qnext_slice_index rnd v xs ro t rest n.toNat hi hlast ht.1 ht.2 hA⟩
    | map kk es =>
      by_cases hne : es = []
      · right
        refine ⟨.node (v.fail .ErrQueryEmptyMap), ?_, ?_⟩
        · intro n hn; cases hn; simp [fail_eq]
        · rw [value.qnext]
          simp [reflect.Value.IsValid, reflect.Value.Kind, GoVal.kind, reflect.Value.Len, hne]
      · cases kk with
        | string =>
          rcases MapIndex_cases .string es ro (.s t) with ⟨c, hc, hm⟩ | hm
          · left
            refine ⟨c, ro, hc, id, fun rest => ?_⟩
            rw [qnext_map_string rnd v es ro t rest hne, hm]
          · right
            refine ⟨.node (v.new reflect.Value.zero), ?_, ?_⟩
            · intro n hn; cases hn; exact new_zero v
            · rw [qnext_map_string rnd v es ro t [] hne, hm]; simp
        | integral k =>
          cases hA : strconv.Atoi t with
          | none =>
            right
            refine ⟨.node (v.fail .ErrInvalidKeyTypeForMapQuery), ?_, ?_⟩
            · intro n hn; cases hn; simp [fail_eq]
            · rw [qnext_map_integral rnd v k es ro t [] hne, hA]
          | some sconv =>
            rcases MapIndex_cases (.integral k) es ro (.i (k.convert sconv)) with
              ⟨c, hc, hm⟩ | hm
            · left
              refine ⟨c, ro, hc, id, fun rest => ?_⟩
              rw [qnext_map_integral rnd v k es ro t rest hne, hA]
              simp only [hm]
            · right
              refine ⟨.node (v.new reflect.Value.zero), ?_, ?_⟩
              · intro n hn; cases hn; exact new_zero v
              · rw [qnext_map_integral rnd v k es ro t [] hne, hA]
                simp only [hm]; simp
        | other =>
          right
          refine ⟨.nilPtr, (by intro n hn; cases hn), ?_⟩
          rw [value.qnext]
          simp [reflect.Value.IsValid, reflect.Value.Kind, GoVal.kind, reflect.Value.Len, hne,
            reflect.Value.KeyKind]
        | definedString =>
          right
          refine ⟨.panics, (by intro n hn; cases hn), ?_⟩
          rw [value.qnext]
          simp [reflect.Value.IsValid, reflect.Value.Kind, GoVal.kind, reflect.Value.Len, hne,
            reflect.Value.KeyKind]
        | definedIntegral k =>
          cases hA : strconv.Atoi t with
          | none =>
            right
            refine ⟨.node (v.fail .ErrInvalidKeyTypeForMapQuery), ?_, ?_⟩
            · intro n hn; cases hn; simp [fail_eq]
            · rw [value.qnext]
              simp [reflect.Value.IsValid, reflect.Value.Kind, GoVal.kind, reflect.Value.Len,
                hne, reflect.Value.KeyKind, hA]
          | some sconv =>
            right
            refine ⟨.panics, (by intro n hn; cases hn), ?_⟩
            rw [value.qnext]
            simp [reflect.Value.IsValid, reflect.Value.Kind, GoVal.kind, reflect.Value.Len, hne,
              reflect.Value.KeyKind, hA]
    | struct fs =>
      by_cases hne : fs = []
      · right
        refine ⟨.node (v.fail .ErrQueryEmptyStruct), ?_, ?_⟩
        · intro n hn; cases hn; simp [fail_eq]
        · rw [value.qnext]
          simp [reflect.Value.IsValid, reflect.Value.Kind, GoVal.kind, reflect.Value.NumField,
            reflect.Value.Fields, hne]
      · have hsel : (∃ f, firstByteIsUpper t = true ∧
            fs.find? (fun g => g.Name == t) = some f) ∨
            (firstByteIsUpper t = false ∨ fs.find? (fun g => g.Name == t) = none) := by
          cases hU : firstByteIsUpper t with
          | false => right; left; rfl
          | true =>
            cases hf : fs.find? (fun g => g.Name == t) with
            | none => right; right; rfl
            | some f => left; exact ⟨f, rfl, rfl⟩
        rcases hsel with ⟨f, hU, hf⟩ | hN
        · left
          exact ⟨f.val, ro || !f.IsExported, List.mem_map_of_mem _ (List.mem_of_find?_eq_some hf),
            by intro h; simpa using (Bool.or_eq_false_iff.mp h).1,
            fun rest => qnext_struct_byName rnd v fs ro t rest f hU hf⟩
        · cases hT : fs.find? (fun sfield =>
              v.tags.any (fun tlookup => StructTag.Get sfield.Tag tlookup == t)) with
          | none =>
            right
            refine ⟨.node (v.fail .ErrStructFieldNotFound), ?_,
              qnext_struct_notFound rnd v fs ro t [] hne hN hT⟩
            intro n hn; cases hn; simp [fail_eq]
          | some f =>
            left
            exact ⟨f.val, ro || !f.IsExported,
              List.mem_map_of_mem _ (List.mem_of_find?_eq_some hT),
              by intro h; simpa using (Bool.or_eq_false_iff.mp h).1,
              fun rest => qnext_struct_byTag rnd v fs ro t rest f hN hT⟩
    | int k n =>
      right
      refine ⟨.nilPtr, (by intro n hn; cases hn), ?_⟩
      rw [value.qnext]
      cases k <;> simp [reflect.Value.IsValid, reflect.Value.Kind, GoVal.kind, IntKind.toKind]
    | definedInt k n =>
      right
      refine ⟨.nilPtr, (by intro n hn; cases hn), ?_⟩
      rw [value.qnext]
      cases k <;> simp [reflect.Value.IsValid, reflect.Value.Kind, GoVal.kind, IntKind.toKind]
    | misc k =>
      right
      refine ⟨.nilPtr, (by intro n hn; cases hn), ?_⟩
      rw [value.qnext]
      cases k <;> simp [reflect.Value.IsValid, reflect.Value.Kind, GoVal.kind, MiscKind.toKind]
    | _ =>
      right
      refine ⟨.nilPtr, (by intro n hn; cases hn), ?_⟩
      rw [value.qnext]
      simp [reflect.Value.IsValid, reflect.Value.Kind, GoVal.kind]
  | succ d ih =>
    intro x ro hd
    cases x with
    | ptr y =>
      have hy : y.ptrDepth = d := by simpa [GoVal.ptrDepth] using hd
      rcases ih y ro hy with ⟨c, ro', hc, hro, hstep⟩ | ⟨o, ho, hq⟩
      · left
        exact ⟨c, ro', by simpa [GoVal.slots] using hc, hro,
          fun rest => by rw [qnext_ptr]; exact hstep rest⟩
      · right
        exact ⟨o, ho, by rw [qnext_ptr]; exact hq⟩
    | nilptr e =>
      right
      exact ⟨.panics, (by intro n hn; cases hn), qnext_nilptr rnd v e ro t []⟩
    | nilTimePtr =>
      right
      exact ⟨.panics, (by intro n hn; cases hn), qnext_nilTimePtr rnd v ro t []⟩
    | _ => simp [GoVal.ptrDepth] at hd

/-! ### C4 -/

/-- A value that is the content of a location and is not held there in an
interface is the location itself. -/
theorem eq_of_asInterface (c w : GoVal) (h : c.asInterface = some w) (hc : c ≠ .iface w) :
    c = w := by
  cases c <;> simp_all [GoVal.asInterface]

/-- C4, as stated, fails when the first token reaches a location of
interface type: with `m = map[string]interface{}{"a": []int{1, 2}}`, `Q(m,
"a")` returns the slice without error and `Q` of that slice with `1`
returns 2, but `Q(m, "a", "1")` returns the nil `*value`: `qnext` sees the
kind `Interface` and gives up. -/
theorem C4_counterexample :
    Q (fun _ => 0) DefaultTags
        (some (.map .string [(.s "a", .iface (.slice [.int .int 1, .int .int 2]))])) ["a"] =
      .node { v := some (.slice [.int .int 1, .int .int 2]), lastErr := none,
              tags := DefaultTags } ∧
    Q (fun _ => 0) DefaultTags (some (.slice [.int .int 1, .int .int 2])) ["1"] =
      .node { v := some (.int .int 2), lastErr := none, tags := DefaultTags } ∧
    Q (fun _ => 0) DefaultTags
        (some (.map .string [(.s "a", .iface (.slice [.int .int 1, .int .int 2]))]))
        ["a", "1"] = .nilPtr := by
  refine ⟨?_, ?_, ?_⟩
  · rw [Q_cons, qnext_map_string _ _ _ _ _ _ (by simp)]
    simp [reflect.Value.MapIndex, value.new, reflect.Value.IsValid,
      reflect.Value.CanInterface, reflect.Value.Interface, GoVal.asInterface]
  · rw [Q_cons, qnext_slice_index (fun _ => 0) _ _ false "1" [] 1 (by decide) (by decide)
      (by decide) (by decide) (by decide)]
    simp [new_of_root, GoVal.asInterface]
  · rw [Q_cons, qnext_map_string _ _ _ _ _ _ (by simp)]
    simp only [reflect.Value.MapIndex, List.find?]
    simp only [decide_True, if_neg (List.cons_ne_nil _ _)]
    rw [value.qnext]
    simp [reflect.Value.IsValid, reflect.Value.Kind, GoVal.kind]

/-- C4 (amended): for a value `v`, a token `t` and a non-empty token list
`ts`, none of the tokens being `random` or `rand`: if `Q(v, t)` returns a
node with a raw value `w` that is not nil (such a node carries no error), and
`w` is not
held in an element, map value or field of interface type of `v`, then
`Q(v, t, ts...)` does what `Q(w, ts...)` does: the same node (raw value and
error), or the same failure. -/
theorem C4_composition (rnd : Nat → Nat) (tags : List String) (x : GoVal) (t : String)
    (ts : List String) (n : value) (w : GoVal)
    (hts : ts ≠ []) (hrand : ∀ q ∈ t :: ts, q ≠ "random" ∧ q ≠ "rand")
    (hq : Q rnd tags (some x) [t] = .node n) (hraw : n.Interface = some w) (hslot : GoVal.iface w ∉ x.slots) :
    Q rnd tags (some x) (t :: ts) = Q rnd tags (some w) ts := by
  obtain ⟨q, r, rfl⟩ := List.exists_cons_of_ne_nil hts
  rw [Q_cons] at hq
  rw [Q_cons, Q_cons]
  rcases qnext_step rnd ⟨some x, none, tags⟩ t (hrand t (List.mem_cons_self _ _)) _ x false rfl
    with ⟨c, ro', hc, -, hstep⟩ | ⟨o, ho, hqo⟩
  · have h1 := hstep []
    rw [if_pos rfl, hq] at h1
    have hn : n = value.new ⟨some x, none, tags⟩ ⟨some c, ro'⟩ := Outcome.node.inj h1
    have hv : n.v = some w := hraw
    rw [hn] at hv
    cases ro' with
    | true => simp [value.new, reflect.Value.IsValid, reflect.Value.CanInterface] at hv
    | false =>
      have hci : c.asInterface = some w := by
        simpa [value.new, reflect.Value.IsValid, reflect.Value.CanInterface,
          reflect.Value.Interface] using hv
      have hcw : c = w :=
        eq_of_asInterface c w hci (fun h => hslot (h ▸ hc))
      subst hcw
      rw [hstep (q :: r), if_neg (List.cons_ne_nil _ _), new_of_root, hci]
  · rw [hq] at hqo
    have hv : n.v = none := ho n hqo.symm
    have hv' : n.v = some w := hraw
    rw [hv] at hv'
    cases hv'

/-- A node with a raw value carries no error, when a single token produced
it. -/
theorem no_error_of_raw (rnd : Nat → Nat) (tags : List String) (x : GoVal) (t : String)
    (n : value) (w : GoVal) (ht : t ≠ "random" ∧ t ≠ "rand")
    (hq : Q rnd tags (some x) [t] = .node n) (hraw : n.Interface = some w) :
    n.Err = none := by
  rw [Q_cons] at hq
  rcases qnext_step rnd ⟨some x, none, tags⟩ t ht _ x false rfl
    with ⟨c, ro', -, -, hstep⟩ | ⟨o, ho, hqo⟩
  · have h1 := hstep []
    rw [if_pos rfl, hq] at h1
    rw [Outcome.node.inj h1]
    rfl
  · rw [hq] at hqo
    have hv : n.v = none := ho n hqo.symm
    have hv' : n.v = some w := hraw
    rw [hv] at hv'
    cases hv'

theorem qx_hchildren :
    Q (fun _ => 0) DefaultTags (some qx) ["hchildren"] =
      .node { v := some qxChildren, lastErr := none, tags := DefaultTags } := by
  rw [Q_cons, qx, qnext_ptr, qnext_struct_byTag (fun _ => 0) _ _ false "hchildren" []
    ⟨"Children", [("header", "hchildren"), ("xml", "children")], qxChildren⟩
    (Or.inl (by decide)) (by rfl)]
  simp [value.new, reflect.Value.IsValid, reflect.Value.CanInterface,
    StructField.IsExported, unicode.IsUpper, reflect.Value.Interface, GoVal.asInterface, qxChildren]

theorem qxChildren_path :
    Q (fun _ => 0) DefaultTags (some qxChildren) ["0", "Scoreboard", "1"] =
      .node { v := some (.int .int 2), lastErr := none, tags := DefaultTags } := by
  rw [Q_cons, qxChildren, qnext_slice_index (fun _ => 0) _ _ false "0" _ 0 (by decide)
    (by decide) (by decide) (by decide) (by decide), if_neg (List.cons_ne_nil _ _)]
  simp only [List.get, TestQuerierChild]
  rw [qnext_ptr, qnext_struct_byName (fun _ => 0) _ _ false "Scoreboard" _
    ⟨"Scoreboard", [("json", "scoreboard")], .slice ([1, 2, 3, 4, 5].map (GoVal.int .int))⟩
    (by decide) (by rfl), if_neg (List.cons_ne_nil _ _)]
  simp only [List.map, StructField.IsExported, unicode.IsUpper]
  rw [qnext_slice_index (fun _ => 0) _ _ _ "1" [] 1 (by decide) (by decide) (by decide)
    (by decide) (by decide), if_pos rfl]
  simp [value.new, reflect.Value.IsValid, reflect.Value.CanInterface,
    reflect.Value.Interface, GoVal.asInterface]

theorem C4_composition_witness :
    Q (fun _ => 0) DefaultTags (some qx) ["hchildren", "0", "Scoreboard", "1"] =
      .node { v := some (.int .int 2), lastErr := none, tags := DefaultTags } :=
  (C4_composition (fun _ => 0) DefaultTags qx "hchildren" ["0", "Scoreboard", "1"]
    { v := some qxChildren, lastErr := none, tags := DefaultTags } qxChildren
    (by simp) (by decide) qx_hchildren rfl
    (by simp [qx, GoVal.slots, qxChildren])).trans qxChildren_path

/-! ### C11 -/

/-- C11: for every `v`, nil included, `Q(v)` without tokens returns a node
whose raw value is `v`; and with at least one token `Q(nil, tokens...)`
returns a node with `ErrQueryNilValue` and a nil raw value. -/
theorem C11_no_tokens_and_nil_root (rnd : Nat → Nat) (tags : List String) (v : Option GoVal)
    (q0 : String) (rest : List String) :
    Q rnd tags v [] = .node { v := v, lastErr := none, tags := tags } ∧
      (Q rnd tags v []).Interface = some v ∧
      Q rnd tags none (q0 :: rest) =
        .node { v := none, lastErr := some .ErrQueryNilValue, tags := tags } := by
  refine ⟨?_, ?_, ?_⟩ <;> simp [Q, value.Q, Outcome.Interface, value.Interface]

/-! ### C12 -/

/-- C12: on a node whose raw value is not nil and is neither an integer
nor a floating-point number (`uintptr`, which the switch does not list,
included), `Int()` returns 0 and `Float64()` returns 0, and after either
call `Err()` is nil, whatever it was before. -/
theorem C12_silent_zero (h : Host) (n : value) (x : GoVal) (hx : n.v = some x)
    (hint : ∀ k m, x ≠ .int k m) (hf32 : ∀ y, x ≠ .float32 y) (hf64 : ∀ y, x ≠ .float64 y) :
    (n.Int).1 = 0 ∧ (n.Int).2.Err = none ∧
      (n.Float64 h).1 = 0 ∧ (n.Float64 h).2.Err = none := by
  cases x with
  | int k m => exact absurd rfl (hint k m)
  | float32 y => exact absurd rfl (hf32 y)
  | float64 y => exact absurd rfl (hf64 y)
  | _ => simp [value.Int, value.Float64, hx, value.Err]

theorem C12_silent_zero_witness :
    ((⟨some (.bool true), some .ErrStrOfNil, DefaultTags⟩ : value).Int).1 = 0 ∧
    ((⟨some (.bool true), some .ErrStrOfNil, DefaultTags⟩ : value).Int).2.Err = none ∧
    ((⟨some (.bool true), some .ErrStrOfNil, DefaultTags⟩ : value).Float64
      ⟨fun _ => "", fun _ _ => none, id⟩).1 = 0 ∧
    ((⟨some (.bool true), some .ErrStrOfNil, DefaultTags⟩ : value).Float64
      ⟨fun _ => "", fun _ _ => none, id⟩).2.Err = none :=
  C12_silent_zero ⟨fun _ => "", fun _ _ => none, id⟩
    ⟨some (.bool true), some .ErrStrOfNil, DefaultTags⟩ (.bool true) rfl
    (by intro k m h; cases h) (by intro y h; cases h) (by intro y h; cases h)

/-! ### C13 -/

/-- The quotient `num / den` of a rational, rounded toward zero, is its
floor when it is not negative and its ceiling when it is. -/
theorem tdiv_num_den (x : ℚ) :
    Int.tdiv x.num (x.den : Int) = if 0 ≤ x then ⌊x⌋ else ⌈x⌉ := by
  have hden : (0 : Int) ≤ (x.den : Int) := Int.ofNat_nonneg _
  by_cases hx : 0 ≤ x
  · rw [if_pos hx, Rat.floor_def]
    exact Int.tdiv_eq_ediv (Rat.num_nonneg.mpr hx) hden
  · rw [if_neg hx]
    have hneg : 0 ≤ -x := by linarith [not_le.mp hx]
    have h1 : ⌊-x⌋ = (-x).num / ((-x).den : Int) := Rat.floor_def
    have h2 : Int.tdiv (-x).num ((-x).den : Int) = (-x).num / ((-x).den : Int) :=
      Int.tdiv_eq_ediv (Rat.num_nonneg.mpr hneg) (Int.ofNat_nonneg _)
    rw [Int.floor_neg] at h1
    rw [← h2, Rat.neg_num, Rat.neg_den, Int.neg_tdiv] at h1
    exact (neg_injective h1).symm

/-- Within the range of `int`, the conversion of a floating-point number
to `int` is its truncation toward zero. -/
theorem floatToInt_trunc (x : ℚ) (hlo : -(2 : ℚ) ^ 63 ≤ x) (hhi : x ≤ 2 ^ 63 - 1) :
    floatToInt x = if 0 ≤ x then ⌊x⌋ else ⌈x⌉ := by
  unfold floatToInt
  simp only [tdiv_num_den]
  have hr : -(2 : Int) ^ 63 ≤ (if 0 ≤ x then ⌊x⌋ else ⌈x⌉) ∧
      (if 0 ≤ x then ⌊x⌋ else ⌈x⌉) < 2 ^ 63 := by
    by_cases hx : 0 ≤ x
    · rw [if_pos hx]
      constructor
      · have := Int.floor_nonneg.mpr hx
        have h2 : -(2 : Int) ^ 63 ≤ 0 := by norm_num
        omega
      · rw [Int.floor_lt]
        push_cast
        linarith
    · rw [if_neg hx]
      constructor
      · have h1 : ((-(2 : Int) ^ 63 : Int) : ℚ) ≤ x := by push_cast; exact hlo
        exact Int.cast_le.mp (le_trans h1 (Int.le_ceil x))
      · have h1 : ⌈x⌉ ≤ 0 := Int.ceil_le.mpr (by push_cast; linarith [not_le.mp hx])
        have h2 : (0 : Int) < 2 ^ 63 := by norm_num
        omega
  rw [if_pos hr]

/-- The truncation toward zero is the integer of the largest magnitude not
above the magnitude of the number, with the sign of the number. -/
theorem trunc_magnitude (x : ℚ) :
    |(((if 0 ≤ x then ⌊x⌋ else ⌈x⌉ : Int)) : ℚ)| ≤ |x| ∧
      |x| < |(((if 0 ≤ x then ⌊x⌋ else ⌈x⌉ : Int)) : ℚ)| + 1 ∧
      0 ≤ (((if 0 ≤ x then ⌊x⌋ else ⌈x⌉ : Int)) : ℚ) * x := by
  by_cases hx : 0 ≤ x
  · simp only [if_pos hx]
    have h0 : (0 : ℚ) ≤ (⌊x⌋ : ℚ) := by exact_mod_cast Int.floor_nonneg.mpr hx
    rw [abs_of_nonneg h0, abs_of_nonneg hx]
    exact ⟨Int.floor_le x, Int.lt_floor_add_one x, mul_nonneg h0 hx⟩
  · simp only [if_neg hx]
    have hx' : x < 0 := not_le.mp hx
    have h0 : (⌈x⌉ : ℚ) ≤ 0 := by
      exact_mod_cast Int.ceil_le.mpr (by push_cast; exact le_of_lt hx')
    rw [abs_of_nonpos h0, abs_of_neg hx']
    refine ⟨by linarith [Int.le_ceil x], by linarith [Int.ceil_lt_add_one x], ?_⟩
    exact mul_nonneg_of_nonpos_of_nonpos h0 (le_of_lt hx')

theorem convert_int_of_inRange (m : Int) (hlo : -(2 : Int) ^ 63 ≤ m) (hhi : m < 2 ^ 63) :
    IntKind.convert .int m = m ∧ IntKind.convert .int64 m = m := by
  simp only [IntKind.convert]
  norm_num at hlo hhi ⊢
  omega

/-- C13, as stated, fails for the integer types the switch of `Int()` does
not list: on the `uintptr` 5 and on the 5 of a defined integer type (such
as a `time.Duration`, whose underlying type is `int64`) `Int()` returns 0,
and it sets no error. -/
theorem C13_counterexample :
    (⟨some (.uintptr 5), none, DefaultTags⟩ : value).Int =
        (0, ⟨some (.uintptr 5), none, DefaultTags⟩) ∧
      (⟨some (.definedInt .int64 5), none, DefaultTags⟩ : value).Int =
        (0, ⟨some (.definedInt .int64 5), none, DefaultTags⟩) :=
  ⟨rfl, rfl⟩

/-- C13 (amended): on a node whose raw value is an integer of one of the
ten predeclared types `int`, `int8` ... `int64`, `uint`, `uint8` ...
`uint64` that the native `int` can hold, `Int()` returns that integer
without error; on a node whose raw value is a `float32` or a `float64` `f`
within the range of `int`, `Int()` returns `f` truncated toward zero (the
integer of largest magnitude not above `|f|`, with the sign of `f`),
without error. -/
theorem C13_int_of_numbers (n : value) :
    (∀ k m, n.v = some (.int k m) → -(2 : Int) ^ 63 ≤ m → m < 2 ^ 63 →
      (n.Int).1 = m ∧ (n.Int).2.Err = none) ∧
    (∀ f : ℚ, (n.v = some (.float32 f) ∨ n.v = some (.float64 f)) →
      -(2 : ℚ) ^ 63 ≤ f → f ≤ 2 ^ 63 - 1 →
      (n.Int).1 = (if 0 ≤ f then ⌊f⌋ else ⌈f⌉) ∧
        |(((n.Int).1 : Int) : ℚ)| ≤ |f| ∧ |f| < |(((n.Int).1 : Int) : ℚ)| + 1 ∧
        0 ≤ (((n.Int).1 : Int) : ℚ) * f ∧
        (n.Int).2.Err = none) := by
  constructor
  · intro k m hv hlo hhi
    simp [value.Int, hv, value.Err, (convert_int_of_inRange m hlo hhi).1]
  · intro f hv hlo hhi
    have hI : (n.Int).1 = (if 0 ≤ f then ⌊f⌋ else ⌈f⌉) ∧ (n.Int).2.Err = none := by
      rcases hv with hv | hv <;>
        simp [value.Int, hv, value.Err, floatToInt_trunc f hlo hhi]
    obtain ⟨h1, h2, h3⟩ := trunc_magnitude f
    rw [hI.1]
    exact ⟨rfl, h1, h2, h3, hI.2⟩

theorem C13_int_of_numbers_witness :
    ((⟨some (.int .uint8 200), some .ErrStrOfNil, DefaultTags⟩ : value).Int).1 = 200 ∧
    ((⟨some (.float64 (-5 / 2)), none, DefaultTags⟩ : value).Int).1 = -2 :=
  ⟨((C13_int_of_numbers ⟨some (.int .uint8 200), some .ErrStrOfNil, DefaultTags⟩).1 .uint8 200
      rfl (by norm_num) (by norm_num)).1,
    by
      have h := ((C13_int_of_numbers ⟨some (.float64 (-5 / 2)), none, DefaultTags⟩).2 (-5 / 2)
        (Or.inr rfl) (by norm_num) (by norm_num)).1
      rw [h, if_neg (by norm_num)]
      rw [Int.ceil_eq_iff]
      norm_num⟩

/-! ### C14 -/

/-- What `timeFromInt64` returns: above 9,999,999,999 the instant `i`
milliseconds after the epoch, otherwise (every negative `i` included) the
instant `i` seconds after the epoch.  The receiver is left as it was. -/
theorem timeFromInt64_spec (n : value) (i : Int) :
    (n.timeFromInt64 i).2 = n ∧
      (n.timeFromInt64 i).1.UnixNano = (if i > 9999999999 then i * 1000000 else i * 1000000000) ∧
      0 ≤ (n.timeFromInt64 i).1.nsec ∧ (n.timeFromInt64 i).1.nsec < 1000000000 := by
  unfold value.timeFromInt64
  by_cases hi : i > 9999999999
  · have h0 : (0 : Int) ≤ i := by omega
    have hd : Int.tdiv i 1000 = i / 1000 := Int.tdiv_eq_ediv h0 (by norm_num)
    have hm : Int.tmod i 1000 = i % 1000 := Int.tmod_eq_emod h0 (by norm_num)
    have hn : ¬ (i % 1000 * 1000000 < 0 ∨ i % 1000 * 1000000 ≥ 1000000000) := by omega
    simp only [if_pos hi, hd, hm, GoTime.Unix, if_neg hn, GoTime.UnixNano]
    refine ⟨trivial, ?_, ?_, ?_⟩ <;> omega
  · have hn : ¬ ((0 : Int) < 0 ∨ (0 : Int) ≥ 1000000000) := by omega
    simp only [if_neg hi, GoTime.Unix, if_neg hn, GoTime.UnixNano]
    refine ⟨trivial, ?_, ?_, ?_⟩ <;> omega

/-- C14, as stated, fails twice.  An `int64` of large magnitude below zero
is read as seconds: for `-10000000000000` `Time()` returns the instant that
many seconds before the epoch, not that many milliseconds.  And an integer
of a type the switch of `Time()` does not list, such as the `int8` 5, is
not read at all: `Time()` returns the zero time and sets
`ErrTimeOfIncompatibleType`. -/
theorem C14_counterexample :
    (⟨some (.int .int64 (-10000000000000)), none, DefaultTags⟩ : value).Time
        ⟨fun _ => "", fun _ _ => none, id⟩ =
      some (⟨-10000000000000, 0⟩, ⟨some (.int .int64 (-10000000000000)), none, DefaultTags⟩) ∧
    (⟨-10000000000000, 0⟩ : GoTime).UnixNano ≠ -10000000000000 * 1000000 ∧
    (⟨some (.int .int8 5), none, DefaultTags⟩ : value).Time
        ⟨fun _ => "", fun _ _ => none, id⟩ =
      some (GoTime.zero,
        ⟨some (.int .int8 5), some .ErrTimeOfIncompatibleType, DefaultTags⟩) := by
  refine ⟨?_, by decide, rfl⟩
  simp [value.Time, value.timeFromInt64, GoTime.Unix]

/-- C14 (amended): on a node whose raw value is an integer `m` of type
`int`, `int32` or `int64`, `Time()` returns the instant `m` milliseconds
after the Unix epoch (`m * 10^6` nanoseconds) if `m` exceeds 9,999,999,999,
and the instant `m` seconds after the epoch otherwise, every negative `m`
included. -/
theorem C14_epoch_seconds_or_millis (h : Host) (n : value) (k : IntKind) (m : Int)
    (hv : n.v = some (.int k m)) (hk : k = .int ∨ k = .int32 ∨ k = .int64)
    (hlo : -(2 : Int) ^ 63 ≤ m) (hhi : m < 2 ^ 63) :
    ∃ t : GoTime, n.Time h = some (t, n) ∧
      t.UnixNano = (if m > 9999999999 then m * 1000000 else m * 1000000000) ∧
      0 ≤ t.nsec ∧ t.nsec < 1000000000 := by
  obtain ⟨h1, h2, h3, h4⟩ := timeFromInt64_spec n m
  have hc := (convert_int_of_inRange m hlo hhi).2
  refine ⟨(n.timeFromInt64 m).1, ?_, h2, h3, h4⟩
  have hp : n.timeFromInt64 m = ((n.timeFromInt64 m).1, n) := Prod.ext rfl h1
  rcases hk with rfl | rfl | rfl <;> simp only [value.Time, hv, hc] <;> rw [← hp]

theorem C14_epoch_seconds_or_millis_witness :
    (∃ t : GoTime, (⟨some (.int .int64 1700000000), none, DefaultTags⟩ : value).Time
        ⟨fun _ => "", fun _ _ => none, id⟩ =
          some (t, ⟨some (.int .int64 1700000000), none, DefaultTags⟩) ∧
        t.UnixNano = 1700000000 * 1000000000) ∧
    (∃ t : GoTime, (⟨some (.int .int64 1700000000000), none, DefaultTags⟩ : value).Time
        ⟨fun _ => "", fun _ _ => none, id⟩ =
          some (t, ⟨some (.int .int64 1700000000000), none, DefaultTags⟩) ∧
        t.UnixNano = 1700000000000 * 1000000) := by
  constructor
  · obtain ⟨t, h1, h2, -⟩ := C14_epoch_seconds_or_millis ⟨fun _ => "", fun _ _ => none, id⟩
      ⟨some (.int .int64 1700000000), none, DefaultTags⟩ .int64 1700000000 rfl
      (Or.inr (Or.inr rfl)) (by norm_num) (by norm_num)
    exact ⟨t, h1, by rw [h2, if_neg (by norm_num)]⟩
  · obtain ⟨t, h1, h2, -⟩ := C14_epoch_seconds_or_millis ⟨fun _ => "", fun _ _ => none, id⟩
      ⟨some (.int .int64 1700000000000), none, DefaultTags⟩ .int64 1700000000000 rfl
      (Or.inr (Or.inr rfl)) (by norm_num) (by norm_num)
    exact ⟨t, h1, by rw [h2, if_pos (by norm_num)]⟩

/-! ### C15 -/

/-- C15, as stated, fails: the switch of `Time()` lists `int`, `int32` and
`int64` only.  On the `uint16` 5 `Time()` returns the zero time and sets
`ErrTimeOfIncompatibleType`. -/
theorem C15_counterexample :
    (⟨some (.int .uint16 5), none, DefaultTags⟩ : value).Time
        ⟨fun _ => "", fun _ _ => none, id⟩ =
      some (GoTime.zero,
        ⟨some (.int .uint16 5), some .ErrTimeOfIncompatibleType, DefaultTags⟩) := by
  rfl

/-- C15 (amended): `Time()` reads an integer as a Unix epoch value when its
type is `int`, `int32` or `int64`, and a floating-point number of type
`float32` or `float64` after truncation toward zero, also behind a non-nil
pointer to one of these five types; it then leaves the error slot as it
was, so it does not set `ErrTimeOfIncompatibleType`.  For every other
integer type (`int8`, `int16`, the unsigned types, `uintptr`, a defined
integer type), also behind a pointer, it returns the zero time and sets
`ErrTimeOfIncompatibleType`.  On a nil pointer to one of the five types the
call panics. -/
theorem C15_time_numeric_types (h : Host) (n : value) :
    (∀ k m, (n.v = some (.int k m) ∨ n.v = some (.ptr (.int k m))) →
      (k = .int ∨ k = .int32 ∨ k = .int64) →
      -(2 : Int) ^ 63 ≤ m → m < 2 ^ 63 →
      n.Time h = some ((n.timeFromInt64 m).1, n)) ∧
    (∀ f : ℚ, (n.v = some (.float32 f) ∨ n.v = some (.float64 f) ∨
        n.v = some (.ptr (.float32 f)) ∨ n.v = some (.ptr (.float64 f))) →
      n.Time h = some ((n.timeFromInt64 (floatToInt f)).1, n)) ∧
    (∀ k m, (n.v = some (.int k m) ∨ n.v = some (.ptr (.int k m))) →
      k ≠ .int → k ≠ .int32 → k ≠ .int64 →
      n.Time h = some (GoTime.zero, { n with lastErr := some .ErrTimeOfIncompatibleType })) ∧
    (∀ k m, (n.v = some (.uintptr m) ∨ n.v = some (.definedInt k m) ∨
        n.v = some (.ptr (.uintptr m)) ∨ n.v = some (.ptr (.definedInt k m))) →
      n.Time h = some (GoTime.zero, { n with lastErr := some .ErrTimeOfIncompatibleType })) ∧
    (∀ e, (e = .Int ∨ e = .Int32 ∨ e = .Int64 ∨ e = .Float32 ∨ e = .Float64) →
      n.v = some (.nilptr e) → n.Time h = none) := by
  have hp : ∀ i, n.timeFromInt64 i = ((n.timeFromInt64 i).1, n) :=
    fun i => Prod.ext rfl (timeFromInt64_spec n i).1
  refine ⟨?_, ?_, ?_, ?_, ?_⟩
  · intro k m hv hk hlo hhi
    have hc := (convert_int_of_inRange m hlo hhi).2
    rcases hv with hv | hv <;> rcases hk with rfl | rfl | rfl <;>
      simp only [value.Time, hv, hc] <;> rw [← hp]
  · intro f hv
    rcases hv with hv | hv | hv | hv <;> simp only [value.Time, hv] <;> rw [← hp]
  · intro k m hv h1 h2 h3
    rcases hv with hv | hv <;> cases k <;> simp_all [value.Time]
  · intro k m hv
    rcases hv with hv | hv | hv | hv <;> simp [value.Time, hv]
  · intro e he hv
    rcases he with rfl | rfl | rfl | rfl | rfl <;> simp [value.Time, hv]

theorem C15_time_numeric_types_witness :
    (⟨some (.int .int32 7), none, DefaultTags⟩ : value).Time
        ⟨fun _ => "", fun _ _ => none, id⟩ =
      some (⟨7, 0⟩, ⟨some (.int .int32 7), none, DefaultTags⟩) ∧
    (⟨some (.ptr (.float64 (5 / 2))), none, DefaultTags⟩ : value).Time
        ⟨fun _ => "", fun _ _ => none, id⟩ =
      some (⟨2, 0⟩, ⟨some (.ptr (.float64 (5 / 2))), none, DefaultTags⟩) ∧
    (⟨some (.int .uint8 7), none, DefaultTags⟩ : value).Time
        ⟨fun _ => "", fun _ _ => none, id⟩ =
      some (GoTime.zero, ⟨some (.int .uint8 7), some .ErrTimeOfIncompatibleType, DefaultTags⟩) ∧
    (⟨some (.nilptr .Int64), none, DefaultTags⟩ : value).Time
        ⟨fun _ => "", fun _ _ => none, id⟩ = none :=
  ⟨(C15_time_numeric_types ⟨fun _ => "", fun _ _ => none, id⟩
      ⟨some (.int .int32 7), none, DefaultTags⟩).1 .int32 7 (Or.inl rfl) (Or.inr (Or.inl rfl))
      (by norm_num) (by norm_num),
    ((C15_time_numeric_types ⟨fun _ => "", fun _ _ => none, id⟩
      ⟨some (.ptr (.float64 (5 / 2))), none, DefaultTags⟩).2.1 (5 / 2)
      (Or.inr (Or.inr (Or.inr rfl)))).trans (by
        have h2 : floatToInt (5 / 2) = 2 := by
          rw [floatToInt_trunc (5 / 2) (by norm_num) (by norm_num), if_pos (by norm_num),
            Int.floor_eq_iff]
          norm_num
        rw [h2]
        rfl),
    (C15_time_numeric_types ⟨fun _ => "", fun _ _ => none, id⟩
      ⟨some (.int .uint8 7), none, DefaultTags⟩).2.2.1 .uint8 7 (Or.inl rfl) (by decide)
      (by decide) (by decide),
    (C15_time_numeric_types ⟨fun _ => "", fun _ _ => none, id⟩
      ⟨some (.nilptr .Int64), none, DefaultTags⟩).2.2.2.2 .Int64 (Or.inr (Or.inr (Or.inl rfl)))
      rfl⟩

/-! ### The accessors and the error slot -/

/-- The paths of the accessors that write the slot: after `Str`, `Int` and
`Float64`, and after `Time` on a nil or a `string` raw value, the error
does not depend on what the slot held before. -/
theorem accessors_overwrite (h : Host) (n : value) (e : Option GoError) :
    (({ n with lastErr := e } : value).Str h).2.Err = (n.Str h).2.Err ∧
      (({ n with lastErr := e } : value).Int).2.Err = (n.Int).2.Err ∧
      (({ n with lastErr := e } : value).Float64 h).2.Err = (n.Float64 h).2.Err ∧
      (n.v = none → (({ n with lastErr := e } : value).Time h).map (fun r => r.2.Err) =
        some (some .ErrTimeOfNil)) ∧
      (∀ s, n.v = some (.str s) →
        (({ n with lastErr := e } : value).Time h).map (fun r => r.2.Err) =
          (n.Time h).map (fun r => r.2.Err)) := by
  refine ⟨?_, ?_, ?_, ?_, ?_⟩
  · simp only [value.Str]
  · simp only [value.Int]
  · simp only [value.Float64]
  · intro hv; simp [value.Time, hv, value.Err]
  · intro s hv
    simp only [value.Time, hv, value.timeFromStr, Option.map]

/-! ### One step of the resolver: the three ways it can go -/

/-- What one token does, uniformly in the tokens that follow it: the
resolver goes on from a location `c` it selected; or it stops at once, with
an error node, the nil pointer or a panic, whatever follows; or (a key the
map lacks) it returns a node without raw value if the token is the last one
and panics if it is not. -/
theorem qnext_cases (rnd : Nat → Nat) (v : value) (t : String)
    (ht : t ≠ "random" ∧ t ≠ "rand") (d : Nat) :
    ∀ (x : GoVal) (ro : Bool), x.ptrDepth = d →
      (∃ c ro', ∀ rest,
        value.qnext rnd v ⟨some x, ro⟩ (t :: rest) =
          if rest = [] then .node (v.new ⟨some c, ro'⟩)
          else value.qnext rnd (v.new ⟨some c, ro'⟩) ⟨some c, ro'⟩ rest) ∨
      (∃ o, (∀ n, o = .node n → ∃ e, n = v.fail e) ∧
        ∀ rest, value.qnext rnd v ⟨some x, ro⟩ (t :: rest) = o) ∨
      (∀ rest, value.qnext rnd v ⟨some x, ro⟩ (t :: rest) =
        if rest = [] then .node (v.new reflect.Value.zero) else .panics) := by
  have hmiss : ∀ rest : List String,
      (if rest = [] then Outcome.node (v.new reflect.Value.zero)
        else value.qnext rnd (v.new reflect.Value.zero) reflect.Value.zero rest) =
      if rest = [] then Outcome.node (v.new reflect.Value.zero) else Outcome.panics := by
    intro rest
    cases rest with
    | nil => rfl
    | cons q r =>
      rw [if_neg (List.cons_ne_nil _ _), if_neg (List.cons_ne_nil _ _)]
      exact qnext_zero rnd _ false q r
  induction d with
  | zero =>
    intro x ro hd
    cases x with
    | ptr y => simp [GoVal.ptrDepth] at hd
    | nilptr e => simp [GoVal.ptrDepth] at hd
    | nilTimePtr => simp [GoVal.ptrDepth] at hd
    | slice xs =>
      by_cases hne : xs = []
      · right; left
        refine ⟨.node (v.fail .ErrQueryNilValue), ?_, fun rest => ?_⟩
        · intro n hn; exact ⟨_, (Outcome.node.inj hn).symm⟩
        · rw [value.qnext]
          simp [reflect.Value.IsValid, reflect.Value.Kind, GoVal.kind, reflect.Value.Len, hne]
      · by_cases hlast : t = "last"
        · left
          subst hlast
          exact ⟨xs.getLast hne, ro, fun rest => qnext_slice_last rnd v xs ro rest hne⟩
        · cases hA : strconv.Atoi t with
          | none =>
            right; left
            refine ⟨.node (v.fail .ErrNonIntegerIndexForSlice), ?_, fun rest =>
              qnext_slice_nonInteger rnd v xs ro t rest hne hlast ht.1 ht.2 hA⟩
            intro n hn; exact ⟨_, (Outcome.node.inj hn).symm⟩
          | some n =>
            by_cases hout : n < 0 ∨ n ≥ xs.length
            · right; left
              refine ⟨.node (v.fail .ErrIndexOutOfBoundsForSlice), ?_, fun rest =>
                qnext_slice_outOfBounds rnd v xs ro t rest n hne hlast ht.1 ht.2 hA hout⟩
              intro n hn; exact ⟨_, (Outcome.node.inj hn).symm⟩
            · left
              have hi : n.toNat < xs.length := by omega
              have hn : n = (n.toNat : Int) := by omega
              rw [hn] at hA
              exact ⟨xs.get ⟨n.toNat, hi⟩, ro,
                fun rest => qnext_slice_index rnd v xs ro t rest n.toNat hi hlast ht.1 ht.2 hA⟩
    | map kk es =>
      by_cases hne : es = []
      · right; left
        refine ⟨.node (v.fail .ErrQueryEmptyMap), ?_, fun rest => ?_⟩
        · intro n hn; exact ⟨_, (Outcome.node.inj hn).symm⟩
        · rw [value.qnext]
          simp [reflect.Value.IsValid, reflect.Value.Kind, GoVal.kind, reflect.Value.Len, hne]
      · cases kk with
        | string =>
          rcases MapIndex_cases .string es ro (.s t) with ⟨c, -, hm⟩ | hm
          · left
            refine ⟨c, ro, fun rest => ?_⟩
            rw [qnext_map_string rnd v es ro t rest hne, hm]
          · right; right
            intro rest
            rw [qnext_map_string rnd v es ro t rest hne, hm]
            exact hmiss rest
        | integral k =>
          cases hA : strconv.Atoi t with
          | none =>
            right; left
            refine ⟨.node (v.fail .ErrInvalidKeyTypeForMapQuery), ?_, fun rest => ?_⟩
            · intro n hn; exact ⟨_, (Outcome.node.inj hn).symm⟩
            · rw [qnext_map_integral rnd v k es ro t rest hne, hA]
          | some sconv =>
            rcases MapIndex_cases (.integral k) es ro (.i (k.convert sconv)) with
              ⟨c, -, hm⟩ | hm
            · left
              refine ⟨c, ro, fun rest => ?_⟩
              rw [qnext_map_integral rnd v k es ro t rest hne, hA]
              simp only [hm]
            · right; right
              intro rest
              rw [qnext_map_integral rnd v k es ro t rest hne, hA]
              simp only [hm]
              exact hmiss rest
        | other =>
          right; left
          refine ⟨.nilPtr, (by intro n hn; cases hn), fun rest => ?_⟩
          rw [value.qnext]
          simp [reflect.Value.IsValid, reflect.Value.Kind, GoVal.kind, reflect.Value.Len, hne,
            reflect.Value.KeyKind]
        | definedString =>
          right; left
          refine ⟨.panics, (by intro n hn; cases hn), fun rest => ?_⟩
          rw [value.qnext]
          simp [reflect.Value.IsValid, reflect.Value.Kind, GoVal.kind, reflect.Value.Len, hne,
            reflect.Value.KeyKind]
        | definedIntegral k =>
          cases hA : strconv.Atoi t with
          | none =>
            right; left
            refine ⟨.node (v.fail .ErrInvalidKeyTypeForMapQuery), ?_, fun rest => ?_⟩
            · intro n hn; exact ⟨_, (Outcome.node.inj hn).symm⟩
            · rw [value.qnext]
              simp [reflect.Value.IsValid, reflect.Value.Kind, GoVal.kind, reflect.Value.Len,
                hne, reflect.Value.KeyKind, hA]
          | some sconv =>
            right; left
            refine ⟨.panics, (by intro n hn; cases hn), fun rest => ?_⟩
            rw [value.qnext]
            simp [reflect.Value.IsValid, reflect.Value.Kind, GoVal.kind, reflect.Value.Len, hne,
              reflect.Value.KeyKind, hA]
    | struct fs =>
      by_cases hne : fs = []
      · right; left
        refine ⟨.node (v.fail .ErrQueryEmptyStruct), ?_, fun rest => ?_⟩
        · intro n hn; exact ⟨_, (Outcome.node.inj hn).symm⟩
        · rw [value.qnext]
          simp [reflect.Value.IsValid, reflect.Value.Kind, GoVal.kind, reflect.Value.NumField,
            reflect.Value.Fields, hne]
      · have hsel : (∃ f, firstByteIsUpper t = true ∧
            fs.find? (fun g => g.Name == t) = some f) ∨
            (firstByteIsUpper t = false ∨ fs.find? (fun g => g.Name == t) = none) := by
          cases hU : firstByteIsUpper t with
          | false => right; left; rfl
          | true =>
            cases hf : fs.find? (fun g => g.Name == t) with
            | none => right; right; rfl
            | some f => left; exact ⟨f, rfl, rfl⟩
        rcases hsel with ⟨f, hU, hf⟩ | hN
        · left
          exact ⟨f.val, ro || !f.IsExported,
            fun rest => qnext_struct_byName rnd v fs ro t rest f hU hf⟩
        · cases hT : fs.find? (fun sfield =>
              v.tags.any (fun tlookup => StructTag.Get sfield.Tag tlookup == t)) with
          | none =>
            right; left
            refine ⟨.node (v.fail .ErrStructFieldNotFound), ?_, fun rest =>
              qnext_struct_notFound rnd v fs ro t rest hne hN hT⟩
            intro n hn; exact ⟨_, (Outcome.node.inj hn).symm⟩
          | some f =>
            left
            exact ⟨f.val, ro || !f.IsExported,
              fun rest => qnext_struct_byTag rnd v fs ro t rest f hN hT⟩
    | int k n =>
      right; left
      refine ⟨.nilPtr, (by intro n hn; cases hn), fun rest => ?_⟩
      rw [value.qnext]
      cases k <;> simp [reflect.Value.IsValid, reflect.Value.Kind, GoVal.kind, IntKind.toKind]
    | definedInt k n =>
      right; left
      refine ⟨.nilPtr, (by intro n hn; cases hn), fun rest => ?_⟩
      rw [value.qnext]
      cases k <;> simp [reflect.Value.IsValid, reflect.Value.Kind, GoVal.kind, IntKind.toKind]
    | misc k =>
      right; left
      refine ⟨.nilPtr, (by intro n hn; cases hn), fun rest => ?_⟩
      rw [value.qnext]
      cases k <;> simp [reflect.Value.IsValid, reflect.Value.Kind, GoVal.kind, MiscKind.toKind]
    | _ =>
      right; left
      refine ⟨.nilPtr, (by intro n hn; cases hn), fun rest => ?_⟩
      rw [value.qnext]
      simp [reflect.Value.IsValid, reflect.Value.Kind, GoVal.kind]
  | succ d ih =>
    intro x ro hd
    cases x with
    | ptr y =>
      have hy : y.ptrDepth = d := by simpa [GoVal.ptrDepth] using hd
      rcases ih y ro hy with ⟨c, ro', hstep⟩ | ⟨o, ho, hq⟩ | hq
      · left
        exact ⟨c, ro', fun rest => by rw [qnext_ptr]; exact hstep rest⟩
      · right; left
        exact ⟨o, ho, fun rest => by rw [qnext_ptr]; exact hq rest⟩
      · right; right
        exact fun rest => by rw [qnext_ptr]; exact hq rest
    | nilptr e =>
      right; left
      exact ⟨.panics, (by intro n hn; cases hn), fun rest => qnext_nilptr rnd v e ro t rest⟩
    | nilTimePtr =>
      right; left
      exact ⟨.panics, (by intro n hn; cases hn), fun rest => qnext_nilTimePtr rnd v ro t rest⟩
    | _ => simp [GoVal.ptrDepth] at hd

/-! ### C17 -/

/-- An error met while resolving a list of tokens is met in the same way
when more tokens follow the list. -/
theorem qnext_error_prefix (rnd : Nat → Nat) (rest : List String) :
    ∀ (p : List String), p ≠ [] → (∀ q ∈ p, q ≠ "random" ∧ q ≠ "rand") →
      ∀ (v : value) (x : GoVal) (ro : Bool) (n : value) (e : GoError),
        value.qnext rnd v ⟨some x, ro⟩ p = .node n → n.lastErr = some e →
        value.qnext rnd v ⟨some x, ro⟩ (p ++ rest) = .node n ∧ n.v = none := by
  intro p
  induction p with
  | nil => intro h; exact absurd rfl h
  | cons t ps ih =>
    intro _ hrand v x ro n e hq he
    have ht := hrand t (List.mem_cons_self _ _)
    rcases qnext_cases rnd v t ht _ x ro rfl with ⟨c, ro', hstep⟩ | ⟨o, ho, hall⟩ | hmiss
    · cases ps with
      | nil =>
        rw [hstep [], if_pos rfl] at hq
        rw [← Outcome.node.inj hq] at he
        simp [value.new] at he
      | cons q r =>
        rw [hstep (q :: r), if_neg (List.cons_ne_nil _ _)] at hq
        have hr : ∀ s ∈ q :: r, s ≠ "random" ∧ s ≠ "rand" :=
          fun s hs => hrand s (List.mem_cons_of_mem _ hs)
        have := ih (List.cons_ne_nil _ _) hr _ c ro' n e hq he
        rw [List.cons_append, hstep ((q :: r) ++ rest),
          if_neg (by simp)]
        exact this
    · rw [hall ps] at hq
      obtain ⟨e', hn⟩ := ho n hq
      rw [List.cons_append, hall (ps ++ rest), hq]
      exact ⟨rfl, by rw [hn, fail_eq]⟩
    · cases ps with
      | nil =>
        rw [hmiss [], if_pos rfl] at hq
        rw [← Outcome.node.inj hq] at he
        simp [value.new] at he
      | cons q r =>
        rw [hmiss (q :: r), if_neg (List.cons_ne_nil _ _)] at hq
        cases hq

/-- C17: for a value `v`, a non-empty token list `p` and a token list
`rest`, no token being `random` or `rand`: if `Q(v, p...)` returns a node
with an error `e`, then `Q(v, p..., rest...)` returns the same node, with
the error `e` and a nil raw value. -/
theorem C17_halts_at_first_error (rnd : Nat → Nat) (tags : List String) (v : Option GoVal)
    (p rest : List String) (n : value) (e : GoError) (hp : p ≠ [])
    (hrand : ∀ q ∈ p ++ rest, q ≠ "random" ∧ q ≠ "rand")
    (hq : Q rnd tags v p = .node n) (he : n.Err = some e) :
    Q rnd tags v (p ++ rest) = .node n ∧
      (Q rnd tags v (p ++ rest)).Err = some (some e) ∧
      (Q rnd tags v (p ++ rest)).Interface = some none := by
  obtain ⟨t, ps, rfl⟩ := List.exists_cons_of_ne_nil hp
  have key : Q rnd tags v ((t :: ps) ++ rest) = .node n ∧ n.v = none := by
    cases v with
    | none =>
      have h1 : Q rnd tags none (t :: ps) =
          .node { v := none, lastErr := some .ErrQueryNilValue, tags := tags } := by
        simp [Q, value.Q]
      have h2 : Q rnd tags none ((t :: ps) ++ rest) =
          .node { v := none, lastErr := some .ErrQueryNilValue, tags := tags } := by
        simp [Q, value.Q]
      rw [h1] at hq
      rw [h2, hq]
      exact ⟨rfl, by rw [← Outcome.node.inj hq]⟩
    | some x =>
      rw [Q_cons] at hq
      rw [List.cons_append, Q_cons, ← List.cons_append]
      exact qnext_error_prefix rnd rest (t :: ps) (List.cons_ne_nil _ _)
        (fun q hq' => hrand q (List.mem_append_left _ hq')) _ x false n e hq he
  rw [key.1]
  exact ⟨rfl, by simp [Outcome.Err, he], by simp [Outcome.Interface, value.Interface, key.2]⟩

theorem C17_halts_at_first_error_witness :
    Q (fun _ => 0) DefaultTags (some (.slice [.int .int 1, .int .int 2, .int .int 3]))
        (["99"] ++ ["Scoreboard", "1"]) =
      .node { v := none, lastErr := some .ErrIndexOutOfBoundsForSlice, tags := DefaultTags } :=
  (C17_halts_at_first_error (fun _ => 0) DefaultTags
    (some (.slice [.int .int 1, .int .int 2, .int .int 3])) ["99"] ["Scoreboard", "1"]
    { v := none, lastErr := some .ErrIndexOutOfBoundsForSlice, tags := DefaultTags }
    .ErrIndexOutOfBoundsForSlice (by simp) (by decide)
    (by
      rw [Q_cons, qnext_slice_outOfBounds (fun _ => 0) _ _ false "99" [] 99 (by simp)
        (by decide) (by decide) (by decide) (by decide) (Or.inr (by decide)), fail_eq])
    rfl).1

/-! ### C18 -/

/-- With at least one token, `qnext` takes nothing from its receiver but
the tag list. -/
theorem qnext_receiver (rnd : Nat → Nat) (v v' : value) (htags : v.tags = v'.tags) (d : Nat) :
    ∀ (x : GoVal) (ro : Bool), x.ptrDepth = d → ∀ (q0 : String) (rest : List String),
      value.qnext rnd v ⟨some x, ro⟩ (q0 :: rest) =
        value.qnext rnd v' ⟨some x, ro⟩ (q0 :: rest) := by
  have hnew : v.new = v'.new := by
    funext rv; simp [value.new, htags]
  have hfail : v.fail = v'.fail := by
    funext e; simp [value.fail, hnew]
  induction d with
  | zero =>
    intro x ro hd q0 rest
    conv_lhs => rw [value.qnext]
    conv_rhs => rw [value.qnext]
    cases x with
    | ptr y => simp [GoVal.ptrDepth] at hd
    | nilptr e => simp [GoVal.ptrDepth] at hd
    | nilTimePtr => simp [GoVal.ptrDepth] at hd
    | int k n =>
      cases k <;> simp [reflect.Value.IsValid, reflect.Value.Kind, GoVal.kind, IntKind.toKind]
    | definedInt k n =>
      cases k <;> simp [reflect.Value.IsValid, reflect.Value.Kind, GoVal.kind, IntKind.toKind]
    | misc k =>
      cases k <;> simp [reflect.Value.IsValid, reflect.Value.Kind, GoVal.kind, MiscKind.toKind]
    | _ => simp [reflect.Value.IsValid, reflect.Value.Kind, GoVal.kind, hnew, hfail, htags]
  | succ d ih =>
    intro x ro hd q0 rest
    cases x with
    | ptr y =>
      have hy : y.ptrDepth = d := by simpa [GoVal.ptrDepth] using hd
      rw [qnext_ptr, qnext_ptr]
      exact ih y ro hy q0 rest
    | nilptr e => rw [qnext_nilptr, qnext_nilptr]
    | nilTimePtr => rw [qnext_nilTimePtr, qnext_nilTimePtr]
    | _ => simp [GoVal.ptrDepth] at hd

theorem qnext_pointerTo (rnd : Nat → Nat) (v : value) (k : Nat) (x : GoVal) (ro : Bool)
    (q0 : String) (rest : List String) :
    value.qnext rnd v ⟨some (GoVal.pointerTo k x), ro⟩ (q0 :: rest) =
      value.qnext rnd v ⟨some x, ro⟩ (q0 :: rest) := by
  induction k with
  | zero => rfl
  | succ k ih => rw [GoVal.pointerTo, qnext_ptr, ih]

/-- The kind `Ptr` is one indirection above what `Elem` returns. -/
theorem ptrDepth_of_Ptr (rv : reflect.Value) (h : rv.Kind = .Ptr) :
    rv.ptrDepth = rv.Elem.ptrDepth + 1 := by
  obtain ⟨val, ro⟩ := rv
  cases val with
  | none => simp [reflect.Value.Kind] at h
  | some x =>
    cases x with
    | ptr y => simp [reflect.Value.Elem, reflect.Value.ptrDepth, GoVal.ptrDepth]
    | nilptr e =>
      simp [reflect.Value.Elem, reflect.Value.ptrDepth, GoVal.ptrDepth, reflect.Value.zero]
    | nilTimePtr =>
      simp [reflect.Value.Elem, reflect.Value.ptrDepth, GoVal.ptrDepth, reflect.Value.zero]
    | int k n => cases k <;> simp [reflect.Value.Kind, GoVal.kind, IntKind.toKind] at h
    | definedInt k n => cases k <;> simp [reflect.Value.Kind, GoVal.kind, IntKind.toKind] at h
    | misc k => cases k <;> simp [reflect.Value.Kind, GoVal.kind, MiscKind.toKind] at h
    | _ => simp [reflect.Value.Kind, GoVal.kind] at h

/-- The oracle is consulted for the tokens `random` and `rand` only. -/
theorem qnext_oracle (rnd rnd' : Nat → Nat) :
    ∀ (query : List String), (∀ q ∈ query, q ≠ "random" ∧ q ≠ "rand") →
      ∀ (d : Nat) (rv : reflect.Value), rv.ptrDepth ≤ d → ∀ (v : value),
        value.qnext rnd v rv query = value.qnext rnd' v rv query := by
  intro query
  induction query with
  | nil =>
    intro _ d rv _ v
    rw [value.qnext, value.qnext]
  | cons q0 rest ih =>
    intro hq d
    have h1 : q0 ≠ "random" := (hq q0 (List.mem_cons_self _ _)).1
    have h2 : q0 ≠ "rand" := (hq q0 (List.mem_cons_self _ _)).2
    have hrec : ∀ (v' : value) (rv' : reflect.Value),
        value.qnext rnd v' rv' rest = value.qnext rnd' v' rv' rest := by
      intro v' rv'
      exact ih (fun q hm => hq q (List.mem_cons_of_mem _ hm)) rv'.ptrDepth rv' (le_refl _) v'
    have hnp : ∀ (rv : reflect.Value) (v : value), ¬ rv.Kind = .Ptr →
        value.qnext rnd v rv (q0 :: rest) = value.qnext rnd' v rv (q0 :: rest) := by
      intro rv v hp
      conv_lhs => rw [value.qnext]
      conv_rhs => rw [value.qnext]
      dsimp only
      simp only [dif_neg hp, hrec, h1, h2, or_self, if_false]
    have hptr : ∀ (r : Nat → Nat) (rv : reflect.Value) (v : value), rv.Kind = .Ptr →
        value.qnext r v rv (q0 :: rest) = value.qnext r v rv.Elem (q0 :: rest) := by
      intro r rv v hp
      have hv : rv.IsValid = true := by
        obtain ⟨val, ro⟩ := rv
        cases val with
        | none => simp [reflect.Value.Kind] at hp
        | some x => rfl
      conv_lhs => rw [value.qnext]
      simp [hv, hp]
    induction d with
    | zero =>
      intro rv hd v
      by_cases hp : rv.Kind = .Ptr
      · have := ptrDepth_of_Ptr rv hp
        omega
      · exact hnp rv v hp
    | succ d ihd =>
      intro rv hd v
      by_cases hp : rv.Kind = .Ptr
      · have := ptrDepth_of_Ptr rv hp
        rw [hptr rnd rv v hp, hptr rnd' rv v hp]
        exact ihd rv.Elem (by omega) v
      · exact hnp rv v hp

/-- C18, as stated, fails for a pointer to a location of interface type:
with `var i interface{} = []int{1, 2}`, `Q(i, "0")` returns 1, but
`Q(&i, "0")` returns the nil `*value`: behind the pointer `qnext` finds the
kind `Interface` and gives up. -/
theorem C18_counterexample :
    Q (fun _ => 0) DefaultTags (GoVal.iface (.slice [.int .int 1, .int .int 2])).asInterface
        ["0"] = .node { v := some (.int .int 1), lastErr := none, tags := DefaultTags } ∧
    Q (fun _ => 0) DefaultTags (some (.ptr (.iface (.slice [.int .int 1, .int .int 2]))))
        ["0"] = .nilPtr := by
  constructor
  · simp only [GoVal.asInterface]
    rw [Q_cons, qnext_slice_index (fun _ => 0) _ _ false "0" [] 0 (by decide) (by decide)
      (by decide) (by decide) (by decide)]
    simp [new_of_root, GoVal.asInterface]
  · rw [Q_cons, qnext_ptr, value.qnext]
    simp [reflect.Value.IsValid, reflect.Value.Kind, GoVal.kind]

/-- C18 (amended): for a value `x` that is not held in a location of
interface type, a pointer to `x` through any number of non-nil indirections
and a non-empty token list without `random` and `rand`, `Q` of the pointer
does what `Q(x, tokens...)` does: the same node (raw value and error) or
the same failure; the dereference consumes no token.  The two calls are
separate runs, each with its own random source. -/
theorem C18_pointer_transparent (rnd rnd' : Nat → Nat) (tags : List String) (k : Nat)
    (x : GoVal) (q0 : String) (rest : List String) (hx : x.asInterface = some x)
    (hrand : ∀ q ∈ q0 :: rest, q ≠ "random" ∧ q ≠ "rand") :
    Q rnd tags (some (GoVal.pointerTo k x)) (q0 :: rest) =
      Q rnd' tags x.asInterface (q0 :: rest) := by
  rw [hx, Q_cons, Q_cons, qnext_pointerTo,
    qnext_oracle rnd rnd' (q0 :: rest) hrand _ _ (le_refl _)]
  exact qnext_receiver rnd' ⟨some (GoVal.pointerTo k x), none, tags⟩ ⟨some x, none, tags⟩ rfl _
    x false rfl q0 rest

theorem C18_pointer_transparent_witness :
    Q (fun _ => 0) DefaultTags
        (some (GoVal.pointerTo 2 (.slice [.int .int 1, .int .int 2]))) ["1"] =
      .node { v := some (.int .int 2), lastErr := none, tags := DefaultTags } :=
  (C18_pointer_transparent (fun _ => 0) (fun _ => 1) DefaultTags 2
    (.slice [.int .int 1, .int .int 2]) "1" [] rfl (by decide)).trans
    (by
      simp only [GoVal.asInterface]
      rw [Q_cons, qnext_slice_index (fun _ => 1) _ _ false "1" [] 1 (by decide) (by decide)
        (by decide) (by decide) (by decide)]
      simp [new_of_root, GoVal.asInterface])

/-! ### C19 -/

theorem digitChar_of_isDigit (c : Char) (h : c.isDigit = true) :
    ∃ d : Fin 10, c = Nat.digitChar d.val := by
  have h' : 48 ≤ c.val.toNat ∧ c.val.toNat ≤ 57 := by
    simp only [Char.isDigit, Bool.and_eq_true, decide_eq_true_eq, ge_iff_le] at h
    exact ⟨h.1, h.2⟩
  have hc : c = Char.ofNat c.toNat := (Char.ofNat_toNat c).symm
  have ht : c.toNat = c.val.toNat := rfl
  obtain ⟨h1, h2⟩ := h'
  rw [← ht] at h1 h2
  generalize c.toNat = m at hc h1 h2
  subst hc
  interval_cases m
  · exact ⟨0, by decide⟩
  · exact ⟨1, by decide⟩
  · exact ⟨2, by decide⟩
  · exact ⟨3, by decide⟩
  · exact ⟨4, by decide⟩
  · exact ⟨5, by decide⟩
  · exact ⟨6, by decide⟩
  · exact ⟨7, by decide⟩
  · exact ⟨8, by decide⟩
  · exact ⟨9, by decide⟩

theorem digits_of_digitsValue (cs : List Char) :
    ∀ acc v, strconv.digitsValue cs acc = some v →
      ∃ ds : List (Fin 10), cs = ds.map (fun d => Nat.digitChar d.val) := by
  induction cs with
  | nil => intro _ _ _; exact ⟨[], rfl⟩
  | cons c cs ih =>
    intro acc v h
    simp only [strconv.digitsValue] at h
    by_cases hc : c.isDigit = true
    · rw [if_pos hc] at h
      obtain ⟨ds, hds⟩ := ih _ _ h
      obtain ⟨d, hd⟩ := digitChar_of_isDigit c hc
      exact ⟨d :: ds, by simp [hd, hds]⟩
    · rw [if_neg hc] at h; cases h

theorem digits_of_magnitude (neg : Bool) (cs : List Char) (n : Int)
    (h : strconv.magnitude neg cs = some n) :
    ∃ ds : List (Fin 10), ds ≠ [] ∧ cs = ds.map (fun d => Nat.digitChar d.val) := by
  unfold strconv.magnitude at h
  by_cases he : cs.isEmpty = true
  · rw [if_pos he] at h; cases h
  · rw [if_neg he] at h
    cases hv : strconv.digitsValue cs 0 with
    | none => rw [hv] at h; cases h
    | some v =>
      obtain ⟨ds, hds⟩ := digits_of_digitsValue cs 0 v hv
      refine ⟨ds, ?_, hds⟩
      intro h0
      subst h0
      simp [hds] at he

/-- Every token `Atoi` accepts is a numeral. -/
theorem numeral_of_Atoi (tok : String) (n : Int) (h : strconv.Atoi tok = some n) :
    ∃ sg ds, ds ≠ [] ∧ tok = numeral sg ds := by
  unfold strconv.Atoi at h
  split at h
  · rename_i r heq
    obtain ⟨ds, hne, hds⟩ := digits_of_magnitude _ _ _ h
    exact ⟨.minus, ds, hne, by
      show tok = String.mk _
      rw [← hds]; simp only [Sign.chars, List.singleton_append, ← heq]⟩
  · rename_i r heq
    obtain ⟨ds, hne, hds⟩ := digits_of_magnitude _ _ _ h
    exact ⟨.plus, ds, hne, by
      show tok = String.mk _
      rw [← hds]; simp only [Sign.chars, List.singleton_append, ← heq]⟩
  · obtain ⟨ds, hne, hds⟩ := digits_of_magnitude _ _ _ h
    exact ⟨.none, ds, hne, by
      show tok = String.mk _
      rw [← hds]; simp only [Sign.chars, List.nil_append]⟩

theorem convert_of_inRange (k : IntKind) (n : Int) (h : k.inRange n) : k.convert n = n := by
  cases k <;> simp only [IntKind.inRange, IntKind.convert] at h ⊢ <;>
    norm_num at h ⊢ <;> omega

/-- C19, as stated, fails twice.  For a number outside the range of the
key type: the map `map[uint8]string{1: "x"}` has no key of value 257, yet
the token `257` is answered with the entry of key 1, because `uint8(257)`
is 1.  And for a key type that is of an integral kind without being a
predeclared type: on `map[ID]string{1: "x"}` with `type ID int8`,
`Q(m, "1")` panics, because `MapIndex` is handed a key of type `int8`,
which is not assignable to `ID`. -/
theorem C19_counterexample :
    ((∀ kv ∈ [(GoKey.i 1, GoVal.str "x")], kv.1 ≠ GoKey.i 257) ∧
      Q (fun _ => 0) DefaultTags (some (.map (.integral .uint8) [(.i 1, .str "x")])) ["257"] =
        .node { v := some (.str "x"), lastErr := none, tags := DefaultTags }) ∧
    Q (fun _ => 0) DefaultTags (some (.map (.definedIntegral .int8) [(.i 1, .str "x")])) ["1"] =
      .panics := by
  refine ⟨⟨by decide, ?_⟩, ?_⟩
  · have hA : strconv.Atoi "257" = some 257 := by decide
    rw [Q_cons, qnext_map_integral _ _ _ _ _ _ _ (by simp), hA]
    simp [reflect.Value.MapIndex, IntKind.convert, value.new, reflect.Value.IsValid,
      reflect.Value.CanInterface, reflect.Value.Interface, GoVal.asInterface]
  · have hA : strconv.Atoi "1" = some 1 := by decide
    rw [Q_cons, value.qnext]
    simp [reflect.Value.IsValid, reflect.Value.Kind, GoVal.kind, reflect.Value.Len,
      reflect.Value.KeyKind, hA]

/-- C19 (amended): on a non-empty map whose key type is one of the ten
predeclared integer types, `k`, a token that is a base-10 numeral of a
number `n` in the range of `int` is answered by the lookup of `n` converted
to `k` (reduced modulo the width of `k`, so `n` itself when it lies in the
range of `k`): the node wrapping the value stored under that key, or a node
with a nil raw value and no error when the map has no such key.  Any other
token (no numeral, or a numeral outside the range of `int`) yields
`ErrInvalidKeyTypeForMapQuery`. -/
theorem C19_integral_key_lookup (rnd : Nat → Nat) (tags : List String) (k : IntKind)
    (m : List (GoKey × GoVal)) (tok : String) (hne : m ≠ [])
    (hnodup : (m.map Prod.fst).Nodup) :
    (∀ sg ds, ds ≠ [] → tok = numeral sg ds →
      -(2 : Int) ^ 63 ≤ numeralValue sg ds → numeralValue sg ds < 2 ^ 63 →
      (∀ x, (GoKey.i (k.convert (numeralValue sg ds)), x) ∈ m →
        Q rnd tags (some (.map (.integral k) m)) [tok] =
          .node { v := x.asInterface, lastErr := none, tags := tags }) ∧
      ((∀ x, (GoKey.i (k.convert (numeralValue sg ds)), x) ∉ m) →
        Q rnd tags (some (.map (.integral k) m)) [tok] =
          .node { v := none, lastErr := none, tags := tags }) ∧
      (k.inRange (numeralValue sg ds) → k.convert (numeralValue sg ds) = numeralValue sg ds)) ∧
    ((∀ sg ds, ds ≠ [] → tok = numeral sg ds →
        ¬ (-(2 : Int) ^ 63 ≤ numeralValue sg ds ∧ numeralValue sg ds < 2 ^ 63)) →
      Q rnd tags (some (.map (.integral k) m)) [tok] =
        .node { v := none, lastErr := some .ErrInvalidKeyTypeForMapQuery, tags := tags }) := by
  constructor
  · intro sg ds hds htok hlo hhi
    have hA : strconv.Atoi tok = some (numeralValue sg ds) := by
      rw [htok, Atoi_numeral sg ds hds, if_pos ⟨hlo, hhi⟩]
    refine ⟨?_, ?_, convert_of_inRange k _⟩
    · intro x hx
      rw [Q_cons, qnext_map_integral rnd _ k m false tok [] hne, hA]
      simp [reflect.Value.MapIndex, find_entry_of_mem m _ x hnodup hx, new_of_root]
    · intro hx
      rw [Q_cons, qnext_map_integral rnd _ k m false tok [] hne, hA]
      simp [reflect.Value.MapIndex, find_entry_of_not_mem m _ hx, value.new,
        reflect.Value.IsValid, reflect.Value.zero]
  · intro hno
    have hA : strconv.Atoi tok = none := by
      cases h : strconv.Atoi tok with
      | none => rfl
      | some n =>
        obtain ⟨sg, ds, hds, htok⟩ := numeral_of_Atoi tok n h
        have h2 := Atoi_numeral sg ds hds
        rw [← htok, h, if_neg (hno sg ds hds htok)] at h2
        cases h2
    rw [Q_cons, qnext_map_integral rnd _ k m false tok [] hne, hA, fail_eq]

theorem C19_integral_key_lookup_witness :
    Q (fun _ => 0) DefaultTags (some (.map (.integral .uint8) [(.i 1, .str "x")])) ["1"] =
      .node { v := some (.str "x"), lastErr := none, tags := DefaultTags } ∧
    Q (fun _ => 0) DefaultTags (some (.map (.integral .uint8) [(.i 1, .str "x")])) ["one"] =
      .node { v := none, lastErr := some .ErrInvalidKeyTypeForMapQuery, tags := DefaultTags } :=
  ⟨((C19_integral_key_lookup (fun _ => 0) DefaultTags .uint8 [(.i 1, .str "x")] "1" (by simp)
      (by decide)).1 .none [1] (by simp) (by decide) (by decide) (by decide)).1 (.str "x")
      (by
        have h : IntKind.convert .uint8 (numeralValue .none [1]) = 1 := by decide
        rw [h]; simp),
    (C19_integral_key_lookup (fun _ => 0) DefaultTags .uint8 [(.i 1, .str "x")] "one" (by simp)
      (by decide)).2
      (by
        intro sg ds hds htok hr
        have h := Atoi_numeral sg ds hds
        have h0 : strconv.Atoi "one" = none := by decide
        rw [← htok, h0, if_pos hr] at h
        cases h)⟩

/-! ### C20 -/

/-- C20 fails: on a non-empty map with `string` keys, a token that is no
key of the map followed by at least one more token makes `Q` panic: the
lookup gives the zero `reflect.Value`, and `qnext` calls `Type()` on it
without the `IsValid` test that `value.new` makes.  The same happens after
a step that yields a nil pointer, here element 0 of a slice of
pointers. -/
theorem C20_panics_past_absent_entry (rnd : Nat → Nat) (tags : List String)
    (m : List (GoKey × GoVal)) (k q0 : String) (rest : List String) (e : Kind) (hne : m ≠ [])
    (habsent : ∀ x, (GoKey.s k, x) ∉ m) :
    Q rnd tags (some (.map .string m)) (k :: q0 :: rest) = .panics ∧
      Q rnd tags (some (.slice [.nilptr e])) ("0" :: q0 :: rest) = .panics := by
  constructor
  · rw [Q_cons, qnext_map_string rnd _ m false k (q0 :: rest) hne,
      if_neg (List.cons_ne_nil _ _)]
    simp only [reflect.Value.MapIndex, find_entry_of_not_mem m _ habsent]
    exact qnext_zero rnd _ false q0 rest
  · rw [Q_cons, qnext_slice_index rnd _ _ false "0" (q0 :: rest) 0 (by simp) (by decide)
      (by decide) (by decide) (by decide), if_neg (List.cons_ne_nil _ _)]
    exact qnext_nilptr rnd _ e false q0 rest

theorem C20_panics_past_absent_entry_witness :
    Q (fun _ => 0) DefaultTags (some (.map .string [(.s "waldo", .str "weldo")]))
        ["fred", "x"] = .panics ∧
      Q (fun _ => 0) DefaultTags (some (.slice [.nilptr .Struct])) ["0", "x"] = .panics :=
  C20_panics_past_absent_entry (fun _ => 0) DefaultTags [(.s "waldo", .str "weldo")] "fred" "x"
    [] .Struct (by simp) (by simp)

/-! ### The nodes the resolver returns -/

set_option maxHeartbeats 1000000 in
/-- A node that `qnext` returns after at least one token is a fresh one:
it has no error, or it has no raw value. -/
theorem qnext_node_shape (rnd : Nat → Nat) :
    ∀ (query : List String), query ≠ [] → ∀ (d : Nat) (rv : reflect.Value),
      rv.ptrDepth ≤ d → ∀ (v n : value), value.qnext rnd v rv query = .node n →
        n.lastErr = none ∨ n.v = none := by
  intro query
  induction query with
  | nil => intro h; exact absurd rfl h
  | cons q0 rest ih =>
    intro _ d
    have hrec : ∀ (rv' : reflect.Value) (v' n : value), ¬ rest.length = 0 →
        value.qnext rnd v' rv' rest = .node n → n.lastErr = none ∨ n.v = none := by
      intro rv' v' n hr h
      exact ih (by intro h0; simp [h0] at hr) rv'.ptrDepth rv' (le_refl _) v' n h
    have hnew : ∀ (v : value) (rv' : reflect.Value) (n : value),
        Outcome.node (v.new rv') = .node n → n.lastErr = none ∨ n.v = none := by
      intro v rv' n h
      rw [← Outcome.node.inj h]; left; rfl
    have hfail : ∀ (v : value) (e : GoError) (n : value),
        Outcome.node (v.fail e) = .node n → n.lastErr = none ∨ n.v = none := by
      intro v e n h
      rw [← Outcome.node.inj h, fail_eq]; right; rfl
    have hnp : ∀ (rv : reflect.Value) (v n : value), ¬ rv.Kind = .Ptr →
        value.qnext rnd v rv (q0 :: rest) = .node n → n.lastErr = none ∨ n.v = none := by
      intro rv v n hp h
      rw [value.qnext] at h
      dsimp only at h
      rw [dif_neg hp] at h
      repeat' (first | split_ifs at h | split at h)
      all_goals first
        | (cases h; done)
        | exact hnew _ _ _ h
        | exact hfail _ _ _ h
        | (exact hrec _ _ _ ‹_› h)
    have hptr : ∀ (rv : reflect.Value) (v : value), rv.Kind = .Ptr →
        value.qnext rnd v rv (q0 :: rest) = value.qnext rnd v rv.Elem (q0 :: rest) := by
      intro rv v hp
      have hv : rv.IsValid = true := by
        obtain ⟨val, ro⟩ := rv
        cases val with
        | none => simp [reflect.Value.Kind] at hp
        | some x => rfl
      conv_lhs => rw [value.qnext]
      simp [hv, hp]
    induction d with
    | zero =>
      intro rv hd v n h
      by_cases hp : rv.Kind = .Ptr
      · have := ptrDepth_of_Ptr rv hp
        omega
      · exact hnp rv v n hp h
    | succ d ihd =>
      intro rv hd v n h
      by_cases hp : rv.Kind = .Ptr
      · have := ptrDepth_of_Ptr rv hp
        rw [hptr rv v hp] at h
        exact ihd rv.Elem (by omega) v n h
      · exact hnp rv v n hp h

/-! ### C16: the error slot after an accessor -/

/-- What `Time()` leaves in the error slot: nothing new for an epoch
number, and otherwise an outcome that does not depend on what the slot
held. -/
theorem Time_slot (h : Host) (v : Option GoVal) (tags : List String) (e : Option GoError)
    (r : GoTime × value) (ht : (⟨v, e, tags⟩ : value).Time h = some r) :
    r.2.v = v ∧ r.2.tags = tags ∧
      ((∃ x, v = some x ∧ x.isEpochNumber = true ∧ r.2.lastErr = e ∧
          (⟨v, none, tags⟩ : value).Time h = some (r.1, ⟨v, none, tags⟩)) ∨
        ((∀ x, v = some x → x.isEpochNumber = false) ∧
          (⟨v, none, tags⟩ : value).Time h = some r)) := by
  have hp : ∀ (w : value) (i : Int), w.timeFromInt64 i = ((w.timeFromInt64 i).1, w) :=
    fun w i => Prod.ext rfl (timeFromInt64_spec w i).1
  have hi : ∀ (e' : Option GoError) (i : Int),
      ((⟨v, e', tags⟩ : value).timeFromInt64 i).1 = ((⟨v, none, tags⟩ : value).timeFromInt64 i).1 := by
    intro e' i; simp only [value.timeFromInt64]; split <;> rfl
  have hs : ∀ (e' : Option GoError) (s : String),
      (⟨v, e', tags⟩ : value).timeFromStr h s = (⟨v, none, tags⟩ : value).timeFromStr h s :=
    fun _ _ => rfl
  have hs2 : ∀ (w : value) (s : String),
      (w.timeFromStr h s).2.v = w.v ∧ (w.timeFromStr h s).2.tags = w.tags := by
    intro w s
    simp only [value.timeFromStr]
    split
    · exact ⟨rfl, rfl⟩
    · split
      · exact ⟨rfl, rfl⟩
      · split <;> exact ⟨rfl, rfl⟩
  unfold value.Time at ht
  split at ht
  all_goals first
    | (cases ht; done)
    | (rename_i hv
       simp only at hv
       subst hv
       rw [hp] at ht
       cases ht
       refine ⟨rfl, rfl, Or.inl ⟨_, rfl, rfl, rfl, ?_⟩⟩
       simp only [value.Time]
       rw [hp, hi e])
    | (rename_i hv
       simp only at hv
       subst hv
       split at ht
       all_goals
         (rename_i hs
          refine ⟨?_, ?_, Or.inr ⟨?_, ?_⟩⟩
          · cases ht; rfl
          · cases ht; rfl
          · intro x hx; cases hx; rfl
          · cases ht; simp only [value.Time, hs]))
    | (rename_i hv
       simp only at hv
       subst hv
       refine ⟨?_, ?_, Or.inr ⟨?_, ?_⟩⟩
       · cases ht; exact (hs2 _ _).1
       · cases ht; exact (hs2 _ _).2
       · intro x hx; cases hx; rfl
       · cases ht; exact congrArg some (hs e _).symm)
    | (rename_i hv
       simp only at hv
       subst hv
       refine ⟨?_, ?_, Or.inr ⟨?_, ?_⟩⟩
       · cases ht; rfl
       · cases ht; rfl
       · intro x hx; cases hx
       · cases ht; rfl)
    | skip
  rename_i hv
  simp only at hv
  subst hv
  cases ht
  refine ⟨rfl, rfl, Or.inr ⟨?_, ?_⟩⟩
  · intro x hx
    cases hx
    unfold GoVal.isEpochNumber
    split <;> first | rfl | (exfalso; simp_all)
  · simp only [value.Time]

/-- A node that a caller can hold and that carries an epoch number has an
empty error slot. -/
theorem reachable_number_no_error (h : Host) (n : value) (hr : value.Reachable h n) :
    ∀ x, n.v = some x → x.isEpochNumber = true → n.lastErr = none := by
  induction hr with
  | root v tags => intro _ _ _; rfl
  | query rnd n n' query _ hq ih =>
    intro x hx he
    unfold value.Q at hq
    split_ifs at hq with h0 h1
    · cases hq; exact ih x hx he
    · cases hq
      simp only at hx
      rw [hx] at h1
      cases h1
    · rcases qnext_node_shape rnd query (by intro hq0; exact h0 (by rw [hq0]; rfl)) _ _
        (le_refl _) _ _ hq with h2 | h2
      · exact h2
      · rw [h2] at hx; cases hx
  | setTags n tags _ ih => exact ih
  | str n _ ih =>
    intro x hx he
    unfold value.Str
    split <;> first | rfl | (rename_i hv; unfold value.Str at hx; rw [hv] at hx; cases hx)
  | int n _ ih =>
    intro x hx he
    unfold value.Int
    split <;> first | rfl | (rename_i hv; unfold value.Int at hx; rw [hv] at hx; cases hx)
  | float64 n _ ih =>
    intro x hx he
    unfold value.Float64
    split <;> first | rfl | (rename_i hv; unfold value.Float64 at hx; rw [hv] at hx; cases hx)
  | time n r _ ht ih =>
    intro x hx he
    obtain ⟨v, e, tags⟩ := n
    obtain ⟨hv, -, hc | hc⟩ := Time_slot h v tags e r ht
    · obtain ⟨y, hy, hey, hre, -⟩ := hc
      rw [hre]
      exact ih y hy hey
    · rw [hv] at hx
      rw [hc.1 x hx] at he
      cases he

/-- The errors `Time()` can leave in a slot that was empty: none, or one
of its own two. -/
theorem Time_errors (h : Host) (v : Option GoVal) (tags : List String) (r : GoTime × value)
    (ht : (⟨v, none, tags⟩ : value).Time h = some r) :
    r.2.lastErr = none ∨ r.2.lastErr = some .ErrTimeOfNil ∨
      r.2.lastErr = some .ErrTimeOfIncompatibleType := by
  have hs : ∀ (w : value) (s : String),
      (w.timeFromStr h s).2.lastErr = none ∨
        (w.timeFromStr h s).2.lastErr = some .ErrTimeOfIncompatibleType := by
    intro w s
    simp only [value.timeFromStr]
    split
    · exact Or.inl rfl
    · split
      · exact Or.inl rfl
      · split
        · exact Or.inl rfl
        · exact Or.inr rfl
  unfold value.Time at ht
  split at ht
  all_goals first
    | (cases ht; done)
    | (cases ht; exact Or.inl ((timeFromInt64_spec _ _).1 ▸ rfl))
    | (cases ht; exact Or.inr (Or.inl rfl))
    | (cases ht; exact Or.inr (Or.inr rfl))
    | (cases ht; rcases hs _ _ with h1 | h1
       · exact Or.inl h1
       · exact Or.inr (Or.inr h1))
    | (split at ht
       · cases ht; exact Or.inl rfl
       · cases ht; exact Or.inr (Or.inr rfl))

/-- C16: on every node a caller can hold, whatever its raw value and
whatever its error slot holds, a call of an accessor leaves in the slot the
outcome of that call alone.  After `Str`, `Int` and `Float64`, `Err()` is
the error of the call on a nil raw value (`ErrStrOfNil`, `ErrIntOfNil`,
`ErrIntOfNil`), their only failure, and nil otherwise.  `Time` does what it
does on the same node with an empty slot: it returns in the same cases,
with the same instant and the same `Err()` afterwards, which is nil,
`ErrTimeOfNil` or `ErrTimeOfIncompatibleType`, never an error of an earlier
call; on a nil raw value it returns and `Err()` is `ErrTimeOfNil`.  In
particular, on a numeric epoch value `Time` returns and `Err()` is nil
afterwards. -/
theorem C16_accessors_overwrite (h : Host) (n : value) (hr : value.Reachable h n) :
    (n.Str h).2.Err = (if n.v.isNone then some .ErrStrOfNil else none) ∧
    (n.Int).2.Err = (if n.v.isNone then some .ErrIntOfNil else none) ∧
    (n.Float64 h).2.Err = (if n.v.isNone then some .ErrIntOfNil else none) ∧
    ((n.Time h).map (fun r => (r.1, r.2.Err)) =
      (({ n with lastErr := none } : value).Time h).map (fun r => (r.1, r.2.Err))) ∧
    (∀ r, n.Time h = some r →
      r.2.Err = none ∨ r.2.Err = some .ErrTimeOfNil ∨
        r.2.Err = some .ErrTimeOfIncompatibleType) ∧
    (n.v = none → ∃ r, n.Time h = some r ∧ r.2.Err = some .ErrTimeOfNil) ∧
    (∀ x, n.v = some x → x.isEpochNumber = true →
      ∃ r, n.Time h = some r ∧ r.2.Err = none) := by
  have hinv := reachable_number_no_error h n hr
  obtain ⟨v, e, tags⟩ := n
  have hE : ∀ r, (⟨v, e, tags⟩ : value).Time h = some r →
      ∃ r0, (⟨v, none, tags⟩ : value).Time h = some r0 ∧ r0.1 = r.1 ∧
        r0.2.lastErr = r.2.lastErr := by
    intro r ht
    obtain ⟨-, -, hc | hc⟩ := Time_slot h v tags e r ht
    · obtain ⟨y, hy, hey, hre, h0⟩ := hc
      exact ⟨_, h0, rfl, by rw [hre]; exact (hinv y hy hey).symm⟩
    · exact ⟨r, hc.2, rfl, rfl⟩
  have hN : ∀ r0, (⟨v, none, tags⟩ : value).Time h = some r0 →
      ∃ r, (⟨v, e, tags⟩ : value).Time h = some r := by
    intro r0 h0
    cases ht : (⟨v, e, tags⟩ : value).Time h with
    | some r => exact ⟨r, rfl⟩
    | none =>
      exfalso
      unfold value.Time at ht h0
      simp only at ht h0
      split at ht <;> first
        | (cases ht; done)
        | (split at ht <;> cases ht)
        | (simp only at h0; cases h0)
  refine ⟨?_, ?_, ?_, ?_, ?_, ?_, ?_⟩
  · cases v with
    | none => rfl
    | some x => cases x <;> rfl
  · cases v with
    | none => rfl
    | some x => cases x <;> rfl
  · cases v with
    | none => rfl
    | some x => cases x <;> rfl
  · cases ht : (⟨v, e, tags⟩ : value).Time h with
    | some r =>
      obtain ⟨r0, h0, h1, h2⟩ := hE r ht
      show _ = Option.map _ ((⟨v, none, tags⟩ : value).Time h)
      rw [h0]
      simp only [Option.map, value.Err, h1, h2]
    | none =>
      show _ = Option.map _ ((⟨v, none, tags⟩ : value).Time h)
      cases h0 : (⟨v, none, tags⟩ : value).Time h with
      | none => rfl
      | some r0 =>
        obtain ⟨r, hr2⟩ := hN r0 h0
        rw [ht] at hr2
        cases hr2
  · intro r ht
    obtain ⟨r0, h0, -, h2⟩ := hE r ht
    simp only [value.Err]
    rw [← h2]
    exact Time_errors h v tags r0 h0
  · intro hv
    simp only at hv
    subst hv
    exact ⟨_, rfl, rfl⟩
  · intro x hx he
    simp only at hx
    subst hx
    have he0 : e = none := hinv x rfl he
    subst he0
    unfold GoVal.isEpochNumber at he
    split at he <;> first
      | (cases he; done)
      | exact ⟨_, rfl, (timeFromInt64_spec _ _).1 ▸ rfl⟩

theorem C16_accessors_overwrite_witness :
    value.Reachable ⟨fun _ => "", fun _ _ => none, id⟩
        ((⟨some (.int .int64 1700000000), none, DefaultTags⟩ : value).Str
          ⟨fun _ => "", fun _ _ => none, id⟩).2 ∧
      ∃ r, ((⟨some (.int .int64 1700000000), none, DefaultTags⟩ : value).Str
          ⟨fun _ => "", fun _ _ => none, id⟩).2.Time ⟨fun _ => "", fun _ _ => none, id⟩ = some r ∧
        r.2.Err = none :=
  ⟨.str _ (.root _ _),
    (C16_accessors_overwrite ⟨fun _ => "", fun _ _ => none, id⟩ _
      (.str _ (.root _ _))).2.2.2.2.2.2 (.int .int64 1700000000) rfl rfl⟩

end tagq
